import Mathlib

set_option maxRecDepth 10000

/-!
Verification of the dynamic-graph robot-simulation core (graph.ts, robot.ts).

The TypeScript source is embedded shallowly:
* JS numbers carrying weights and probabilities are modelled as rationals;
  node ids, ports and counters are naturals (they are only ever produced by
  integer-valued expressions in the source).
* Mutation is modelled by explicit state passing.
* Math.random() is modelled as an explicit stream of rationals
  (rng : Nat -> Rat) together with a cursor that advances by one per draw;
  Math.random() guarantees values in [0, 1), which appears as a hypothesis
  where a theorem needs it.
* Array accesses that the source documents as caller-validated preconditions
  (out-of-range access is undefined behaviour in the spec) are totalised with
  default values; theorems carry the corresponding validity hypotheses.
-/

/-- In-place update of the element at index i (JS `arr[i] = f(arr[i])`);
out of range, no element exists and nothing happens. -/
def modifyIdx (f : α → α) : List α → Nat → List α
  | [], _ => []
  | x :: xs, 0 => f x :: xs
  | x :: xs, n + 1 => x :: modifyIdx f xs n

/-- Math.abs on the rational model of JS numbers. -/
def mathAbs (w : ℚ) : ℚ := if w < 0 then -w else w

/-- The exact product q * n of a random draw with a count, written on the
raw rational representation (the library product is sealed against
unfolding, which evaluation on concrete states needs). -/
def ratMulNat (q : ℚ) (n : Nat) : ℚ := Rat.divInt (q.num * n) q.den

/-- The exact value of a / b * c on naturals (the proportional share
count / boundarySum * robotCount of the source), as a rational. -/
def ratShare (a b c : Nat) : ℚ := Rat.divInt ((a : Int) * (c : Int)) (b : Int)

/-- Edge record from graph.ts: `{weight: number, targetNode: number}`. -/
structure Edge where
  weight : ℚ
  targetNode : Nat
  deriving DecidableEq

/-- Vertex record from graph.ts: `{weight: number, edges: Edge[]}`. -/
structure Vertex where
  weight : ℚ
  edges : List Edge
  deriving DecidableEq

/-- The Graph class data: a list of vertices and the directedness flag. -/
structure Graph where
  nodes : List Vertex
  isDirected : Bool
  deriving DecidableEq

/-- nodes[a].edges, with the empty edge list when a is out of range. -/
def Graph.edgesAt (g : Graph) (a : Nat) : List Edge :=
  (g.nodes.getD a ⟨0, []⟩).edges

/-- Graph.getNodeCount. -/
def Graph.getNodeCount (g : Graph) : Nat := g.nodes.length

/-- Graph.getNumberOfPorts. -/
def Graph.getNumberOfPorts (g : Graph) (nodeId : Nat) : Nat :=
  (g.edgesAt nodeId).length

/-- Graph.getAdjacentNodeFromPort: nodes[nodeId].edges[port].targetNode. -/
def Graph.getAdjacentNodeFromPort (g : Graph) (nodeId port : Nat) : Nat :=
  ((g.edgesAt nodeId).getD port ⟨0, 0⟩).targetNode

/-- Graph.getEdgeWeightFromPort: nodes[nodeId].edges[port].weight. -/
def Graph.getEdgeWeightFromPort (g : Graph) (nodeId port : Nat) : ℚ :=
  ((g.edgesAt nodeId).getD port ⟨0, 0⟩).weight

/-- Graph.getAdjacentNodes. -/
def Graph.getAdjacentNodes (g : Graph) (nodeId : Nat) : List Nat :=
  (g.edgesAt nodeId).map (·.targetNode)

/-- Graph.getChildPorts: all ports of the node except parentPort
(parentPort is -1 when there is no parent). -/
def Graph.getChildPorts (g : Graph) (nodeId : Nat) (parentPort : Int) : List Nat :=
  (List.range (g.getNumberOfPorts nodeId)).filter (fun port => (port : Int) ≠ parentPort)

/-- Graph.getPortFromAdjacentNode: findIndex over the edge list, -1 if absent. -/
def Graph.getPortFromAdjacentNode (g : Graph) (nodeId adjacentNodeId : Nat) : Int :=
  match (g.edgesAt nodeId).findIdx? (fun e => e.targetNode == adjacentNodeId) with
  | some i => (i : Int)
  | none => -1

/-- Graph.getEdgeWeight: weight of the first matching edge, 0 when absent. -/
def Graph.getEdgeWeight (g : Graph) (sourceId targetId : Nat) : ℚ :=
  match (g.edgesAt sourceId).find? (fun e => e.targetNode == targetId) with
  | some e => e.weight
  | none => 0

/-- Graph.addNode: push a fresh vertex with the given weight. -/
def Graph.addNode (g : Graph) (nodeWeight : ℚ) : Graph :=
  { g with nodes := g.nodes ++ [⟨nodeWeight, []⟩] }

/-- Graph.addEdge: push the edge at the source; for undirected graphs also
push the mirror edge at the target. -/
def Graph.addEdge (g : Graph) (sourceId targetId : Nat) (edgeWeight : ℚ) : Graph :=
  let n1 := modifyIdx (fun v => { v with edges := v.edges ++ [⟨edgeWeight, targetId⟩] }) g.nodes sourceId
  if g.isDirected then { g with nodes := n1 }
  else { g with nodes := modifyIdx (fun v => { v with edges := v.edges ++ [⟨edgeWeight, sourceId⟩] }) n1 targetId }

/-- Graph.setNodeWeight. -/
def Graph.setNodeWeight (g : Graph) (nodeId : Nat) (weight : ℚ) : Graph :=
  { g with nodes := modifyIdx (fun v => { v with weight := weight }) g.nodes nodeId }

/-- The body of `node.edges.forEach((edge, i) => ...)` inside removeNode.
JavaScript forEach fixes the iteration bound at entry (the first argument,
the initial length) but reads the live array: after `edges.splice(i, 1)` the
callback is still invoked with the NEXT index i+1, so the element that
shifted into slot i is skipped, and indices past the shrunk length are
skipped by the existence check. -/
def removeNodeEdgesPass (nodeId : Nat) : Nat → Nat → List Edge → List Edge
  | 0, _, es => es
  | fuel + 1, i, es =>
    if h : i < es.length then
      let e := es.get ⟨i, h⟩
      if e.targetNode = nodeId then
        removeNodeEdgesPass nodeId fuel (i + 1) (es.eraseIdx i)
      else if nodeId < e.targetNode then
        removeNodeEdgesPass nodeId fuel (i + 1) (es.set i { e with targetNode := e.targetNode - 1 })
      else
        removeNodeEdgesPass nodeId fuel (i + 1) es
    else removeNodeEdgesPass nodeId fuel (i + 1) es

/-- Graph.removeNode: splice the vertex out, then run the edge-fixing
forEach pass over every remaining vertex's edge list. -/
def Graph.removeNode (g : Graph) (nodeId : Nat) : Graph :=
  let pruned := g.nodes.eraseIdx nodeId
  { g with nodes := pruned.map (fun v => { v with edges := removeNodeEdgesPass nodeId v.edges.length 0 v.edges }) }

/-- `const edge = edges.find(e => e.targetNode === t); if (edge) edge.weight = w`:
set the weight of the first edge matching the target, if any. -/
def setFirstWeight (targetId : Nat) (w : ℚ) : List Edge → List Edge
  | [] => []
  | e :: es =>
    if e.targetNode = targetId then { e with weight := w } :: es
    else e :: setFirstWeight targetId w es

/-- Graph.setEdgeWeight: update the first matching edge at the source and,
for undirected graphs, the first matching reverse edge at the target. -/
def Graph.setEdgeWeight (g : Graph) (sourceId targetId : Nat) (weight : ℚ) : Graph :=
  let n1 := modifyIdx (fun v => { v with edges := setFirstWeight targetId weight v.edges }) g.nodes sourceId
  if g.isDirected then { g with nodes := n1 }
  else { g with nodes := modifyIdx (fun v => { v with edges := setFirstWeight sourceId weight v.edges }) n1 targetId }

/-- Inner loop of setRandomEdgeWeightSigns for one source node: for each port
(the edge count of this node never changes during the pass) draw a fresh
random value and call setEdgeWeight with plus or minus the CURRENT magnitude
of the edge at that port. -/
def srewsNode (p : ℚ) (rng : Nat → ℚ) (sourceId : Nat) (acc : Graph × Nat) : Graph × Nat :=
  (List.range (acc.1.getNumberOfPorts sourceId)).foldl
    (fun acc i =>
      let e := (acc.1.edgesAt sourceId).getD i ⟨0, 0⟩
      let r := rng acc.2
      if r < p then
        (acc.1.setEdgeWeight sourceId e.targetNode (mathAbs e.weight), acc.2 + 1)
      else
        (acc.1.setEdgeWeight sourceId e.targetNode (-(mathAbs e.weight)), acc.2 + 1))
    acc

/-- Graph.setRandomEdgeWeightSigns: for every node and every one of its
ports, redraw the sign of that edge's weight (positive with probability p),
preserving its current magnitude, through setEdgeWeight. -/
def Graph.setRandomEdgeWeightSigns (g : Graph) (p : ℚ) (rng : Nat → ℚ) (pos : Nat) : Graph × Nat :=
  (List.range g.nodes.length).foldl (fun acc sourceId => srewsNode p rng sourceId acc) (g, pos)

/-- JSON round trip of a single edge (copy by value). -/
def copyEdge (e : Edge) : Edge := ⟨e.weight, e.targetNode⟩

/-- JSON round trip of a single vertex (copy by value). -/
def copyVertex (v : Vertex) : Vertex := ⟨v.weight, v.edges.map copyEdge⟩

/-- Graph.deepCopyNodes: JSON.parse(JSON.stringify(nodes)), i.e. a structural
clone of the vertex array. -/
def Graph.deepCopyNodes (g : Graph) : List Vertex := g.nodes.map copyVertex

/-- BFS loop of Graph.getShortestPath. State: queue, visited flags and the
previousNode table (a sparse JS array, modelled as Nat -> Option Nat).
Nodes are marked visited when pushed, so each node is enqueued at most once
and fuel nodeCount + 1 covers every pop the source can perform. -/
def bfsLoop (g : Graph) (targetId : Nat) :
    Nat → List Nat → List Bool → (Nat → Option Nat) → (Nat → Option Nat)
  | 0, _, _, prev => prev
  | _ + 1, [], _, prev => prev
  | fuel + 1, currentNode :: rest, visited, prev =>
    if currentNode = targetId then prev
    else
      let acc := (g.getAdjacentNodes currentNode).foldl
        (fun (acc : List Bool × (Nat → Option Nat) × List Nat) adjacentNode =>
          if acc.1.getD adjacentNode false = false then
            (acc.1.set adjacentNode true,
             fun x => if x = adjacentNode then some currentNode else acc.2.1 x,
             acc.2.2 ++ [adjacentNode])
          else acc)
        (visited, prev, rest)
      bfsLoop g targetId fuel acc.2.2 acc.1 acc.2.1

/-- Path reconstruction of Graph.getShortestPath: walk previousNode from the
target, unshifting, until the table is undefined. -/
def buildPath : Nat → (Nat → Option Nat) → Nat → List Nat → List Nat
  | 0, _, currentNode, acc => currentNode :: acc
  | fuel + 1, prev, currentNode, acc =>
    match prev currentNode with
    | none => currentNode :: acc
    | some p => buildPath fuel prev p (currentNode :: acc)

/-- Graph.getShortestPath: BFS from the source, reconstruct from the
previousNode table, and return [] when the reconstruction does not reach
back to the source. -/
def Graph.getShortestPath (g : Graph) (sourceId targetId : Nat) : List Nat :=
  let visited := (List.replicate g.getNodeCount false).set sourceId true
  let prev := bfsLoop g targetId (g.getNodeCount + 1) [sourceId] visited (fun _ => none)
  let path := buildPath (g.getNodeCount + 1) prev targetId []
  match path with
  | [] => []
  | first :: _ => if first = sourceId then path else []

/-- Graph.getDistanceBetweenNodes: path length minus 1, none for the
JS Infinity returned when no path exists. -/
def Graph.getDistanceBetweenNodes (g : Graph) (sourceId targetId : Nat) : Option Nat :=
  match g.getShortestPath sourceId targetId with
  | [] => none
  | path => some (path.length - 1)

/-- Every targetNode stored anywhere in the graph: the pool from which the
BFS of isConnected can ever enqueue a node. -/
def graphTargets (g : Graph) : List Nat :=
  (g.nodes.map (fun v => v.edges.map (fun e => e.targetNode))).join

/-- visited[currentNode] = true, on the total function carrying the
visited flags of the isConnected loop. -/
def bfsMark (visited : Nat → Bool) (currentNode : Nat) : Nat → Bool :=
  fun j => if j = currentNode then true else visited j

/-- The forEach of the isConnected loop: append every adjacent node that
is still unvisited to the back of the queue, one push per stored adjacency
entry, exactly as the source does (so the same node may be enqueued
repeatedly before it is ever popped). -/
def bfsPush (visited : Nat → Bool) (adj rest : List Nat) : List Nat :=
  adj.foldl
    (fun q adjacentNode => if visited adjacentNode = false then q ++ [adjacentNode] else q)
    rest

/-- BFS loop of Graph.isConnected, exactly as the source runs it: pop from
the front, mark the popped node visited, then push its still-unvisited
neighbours. The source marks nodes at POP time, so a node can sit in the
queue many times over and the pop count can grow exponentially with the
graph; the recursion below is that unbounded loop itself, with no fuel:
it terminates because every pop either marks a node that was still
unvisited among the graph's targets and the queue, or consumes one of the
queue's already-marked entries. Visited flags are carried as a total
function so the states only an ill-formed graph can reach (where the
source faults on an out-of-range read) stay well defined. -/
def isConnectedLoop (g : Graph) (queue : List Nat) (visited : Nat → Bool) : Nat → Bool :=
  match queue with
  | [] => visited
  | currentNode :: rest =>
    isConnectedLoop g
      (bfsPush (bfsMark visited currentNode) (g.getAdjacentNodes currentNode) rest)
      (bfsMark visited currentNode)
termination_by
  (((graphTargets g ++ queue).toFinset.filter (fun x => visited x = false)).card,
   queue.countP (fun x => visited x))
decreasing_by
  simp_wf
  rename Nat => currentNode
  rename List Nat => rest
  have hpushMem : ∀ (pv : Nat → Bool) (adj : List Nat) (q : List Nat) (x : Nat),
      x ∈ bfsPush pv adj q → x ∈ q ∨ x ∈ adj := by
    intro pv adj
    induction adj with
    | nil => intro q x hx; exact Or.inl hx
    | cons y ys ih =>
      intro q x hx
      rcases ih _ x hx with h | h
      · dsimp only at h
        by_cases hy : pv y = false
        · rw [if_pos hy] at h
          rcases List.mem_append.mp h with h2 | h2
          · exact Or.inl h2
          · rcases List.mem_singleton.mp h2 with rfl
            exact Or.inr (List.mem_cons_self _ _)
        · rw [if_neg hy] at h
          exact Or.inl h
      · exact Or.inr (List.mem_cons_of_mem _ h)
  have hpushMem2 : ∀ (pv : Nat → Bool) (adj : List Nat) (q : List Nat) (x : Nat),
      x ∈ q → x ∈ bfsPush pv adj q := by
    intro pv adj
    induction adj with
    | nil => intro q x hx; exact hx
    | cons y _ys ih =>
      intro q x hx
      refine ih _ x ?_
      dsimp only
      by_cases hy : pv y = false
      · rw [if_pos hy]
        exact List.mem_append_left _ hx
      · rw [if_neg hy]
        exact hx
  have hpushCount : ∀ (pv : Nat → Bool) (adj : List Nat) (q : List Nat),
      (bfsPush pv adj q).countP (fun x => pv x) = q.countP (fun x => pv x) := by
    intro pv adj
    induction adj with
    | nil => intro q; rfl
    | cons y ys ih =>
      intro q
      rw [show bfsPush pv (y :: ys) q =
          bfsPush pv ys (if pv y = false then q ++ [y] else q) from rfl, ih]
      by_cases hy : pv y = false
      · rw [if_pos hy, List.countP_append]
        simp [hy]
      · rw [if_neg hy]
  have hadjT : ∀ x ∈ g.getAdjacentNodes currentNode, x ∈ graphTargets g := by
    intro x hx
    unfold Graph.getAdjacentNodes Graph.edgesAt at hx
    unfold graphTargets
    rw [List.mem_join]
    by_cases hcur : currentNode < g.nodes.length
    · have hmem : g.nodes.getD currentNode ⟨0, []⟩ ∈ g.nodes := by
        rw [List.getD_eq_getElem _ _ hcur]
        exact List.getElem_mem hcur
      exact ⟨(g.nodes.getD currentNode ⟨0, []⟩).edges.map (fun e => e.targetNode),
        List.mem_map_of_mem (fun v : Vertex => v.edges.map (fun e => e.targetNode)) hmem, hx⟩
    · rw [List.getD_eq_default _ _ (le_of_not_lt hcur)] at hx
      simp at hx
  have hmarkSelf : bfsMark visited currentNode currentNode = true := by simp [bfsMark]
  have hmarkEq : ∀ x, x ≠ currentNode → bfsMark visited currentNode x = visited x := by
    intro x hx
    simp [bfsMark, hx]
  by_cases hv : visited currentNode = true
  · have hfirst :
        (((graphTargets g).toFinset ∪
            (bfsPush (bfsMark visited currentNode) (g.getAdjacentNodes currentNode)
              rest).toFinset).filter (fun x => bfsMark visited currentNode x = false)) =
        ((insert currentNode ((graphTargets g).toFinset ∪ rest.toFinset)).filter
          (fun x => visited x = false)) := by
      apply Finset.ext
      intro x
      simp only [Finset.mem_filter, Finset.mem_union, Finset.mem_insert, List.mem_toFinset]
      constructor
      · rintro ⟨hmem, hfalse⟩
        have hxne : x ≠ currentNode := by
          intro h
          rw [h, hmarkSelf] at hfalse
          exact Bool.noConfusion hfalse
        refine ⟨?_, by rw [← hmarkEq x hxne]; exact hfalse⟩
        rcases hmem with h | h
        · exact Or.inr (Or.inl h)
        · rcases hpushMem _ _ _ x h with h2 | h2
          · exact Or.inr (Or.inr h2)
          · exact Or.inr (Or.inl (hadjT x h2))
      · rintro ⟨hmem, hfalse⟩
        have hxne : x ≠ currentNode := by
          intro h
          rw [h, hv] at hfalse
          exact Bool.noConfusion hfalse
        refine ⟨?_, by rw [hmarkEq x hxne]; exact hfalse⟩
        rcases hmem with h | h | h
        · exact absurd h hxne
        · exact Or.inl h
        · exact Or.inr (hpushMem2 _ _ _ x h)
    rw [hfirst]
    have hsecond :
        (bfsPush (bfsMark visited currentNode) (g.getAdjacentNodes currentNode)
          rest).countP (fun x => bfsMark visited currentNode x)
          < (currentNode :: rest).countP (fun x => visited x) := by
      rw [hpushCount]
      have hpt : rest.countP (fun x => bfsMark visited currentNode x) =
          rest.countP (fun x => visited x) := by
        apply List.countP_congr
        intro a _
        by_cases ha : a = currentNode
        · rw [ha, hmarkSelf, hv]
        · rw [hmarkEq a ha]
      rw [hpt, List.countP_cons, hv]
      simp
    exact Prod.Lex.right _ hsecond
  · have hfalseCur : visited currentNode = false := by
      cases h : visited currentNode with
      | true => exact absurd h hv
      | false => rfl
    apply Prod.Lex.left
    have hsub :
        (((graphTargets g).toFinset ∪
            (bfsPush (bfsMark visited currentNode) (g.getAdjacentNodes currentNode)
              rest).toFinset).filter (fun x => bfsMark visited currentNode x = false)) ⊆
        (((insert currentNode ((graphTargets g).toFinset ∪ rest.toFinset)).filter
          (fun x => visited x = false)).erase currentNode) := by
      intro x hx
      rw [Finset.mem_erase]
      simp only [Finset.mem_filter, Finset.mem_union, Finset.mem_insert,
        List.mem_toFinset] at hx ⊢
      obtain ⟨hmem, hfalse⟩ := hx
      have hxne : x ≠ currentNode := by
        intro h
        rw [h, hmarkSelf] at hfalse
        exact Bool.noConfusion hfalse
      refine ⟨hxne, ?_, by rw [← hmarkEq x hxne]; exact hfalse⟩
      rcases hmem with h | h
      · exact Or.inr (Or.inl h)
      · rcases hpushMem _ _ _ x h with h2 | h2
        · exact Or.inr (Or.inr h2)
        · exact Or.inr (Or.inl (hadjT x h2))
    have hmemCur : currentNode ∈
        ((insert currentNode ((graphTargets g).toFinset ∪ rest.toFinset)).filter
          (fun x => visited x = false)) := by
      simp only [Finset.mem_filter, Finset.mem_union, Finset.mem_insert, List.mem_toFinset]
      exact ⟨Or.inl trivial, hfalseCur⟩
    exact lt_of_le_of_lt (Finset.card_le_card hsub) (Finset.card_erase_lt_of_mem hmemCur)

/-- Graph.isConnected: BFS reachability from node 0, then every(flag) over
the node indices. -/
def Graph.isConnected (g : Graph) : Bool :=
  let visited := isConnectedLoop g [0] (fun _ => false)
  (List.range g.getNodeCount).all (fun i => visited i)

/-- GraphGenerator.generatePath: one initial node, then for i = 1..n-1 add a
node and the edge i-1 -- i. -/
def GraphGenerator.generatePath (nodeCount : Nat) (isDirected : Bool) : Graph :=
  ((List.range nodeCount).drop 1).foldl
    (fun g i => (g.addNode 1).addEdge (i - 1) i 1)
    (Graph.addNode ⟨[], isDirected⟩ 1)

/-- GraphGenerator.generateCycle: a path plus the closing edge n-1 -- 0. -/
def GraphGenerator.generateCycle (nodeCount : Nat) (isDirected : Bool) : Graph :=
  (GraphGenerator.generatePath nodeCount isDirected).addEdge (nodeCount - 1) 0 1

/-- GraphGenerator.generateCompleteGraph: all candidate pairs (ordered when
directed, unordered otherwise), self pairs only with allowSelfLoops. -/
def GraphGenerator.generateCompleteGraph (nodeCount : Nat) (isDirected allowSelfLoops : Bool) : Graph :=
  (List.range nodeCount).foldl
    (fun g i =>
      ((List.range nodeCount).drop (if isDirected then 0 else i)).foldl
        (fun g j => if i ≠ j ∨ allowSelfLoops then g.addEdge i j 1 else g)
        g)
    { nodes := List.replicate nodeCount ⟨1, []⟩, isDirected := isDirected }

/-- One candidate construction of generateErdosRenyiRandomGraph: nodes, then
for each candidate pair consume one random draw (the draw happens only when
the i !== j || allowSelfLoops guard passed, by && short-circuit) and add the
edge when the draw is below the probability. -/
def buildErdosRenyi (nodeCount : Nat) (edgeProbability : ℚ) (isDirected allowSelfLoops : Bool)
    (rng : Nat → ℚ) (pos : Nat) : Graph × Nat :=
  (List.range nodeCount).foldl
    (fun acc i =>
      ((List.range nodeCount).drop (if isDirected then 0 else i)).foldl
        (fun (acc : Graph × Nat) j =>
          if i ≠ j ∨ allowSelfLoops then
            if rng acc.2 < edgeProbability then (acc.1.addEdge i j 1, acc.2 + 1)
            else (acc.1, acc.2 + 1)
          else acc)
        acc)
    ({ nodes := List.replicate nodeCount ⟨1, []⟩, isDirected := isDirected }, pos)

/-- The do-while of generateErdosRenyiRandomGraph with requireConnected
initially true, indexed by the remaining maxAttempts counter. Returns the
list of candidates actually constructed (in order), the last candidate, the
final value of maxAttempts (an Int: `--maxAttempts` on 0 yields -1), and the
random cursor. A connected candidate exits by the && short-circuit WITHOUT
decrementing maxAttempts; a disconnected one decrements it and loops while
it stays positive. -/
def erAttempts (nodeCount : Nat) (edgeProbability : ℚ) (isDirected allowSelfLoops : Bool)
    (rng : Nat → ℚ) : Nat → Nat → List Graph × Graph × Int × Nat
  | 0, pos =>
    let b := buildErdosRenyi nodeCount edgeProbability isDirected allowSelfLoops rng pos
    if b.1.isConnected then ([b.1], b.1, 0, b.2)
    else ([b.1], b.1, -1, b.2)
  | ma + 1, pos =>
    let b := buildErdosRenyi nodeCount edgeProbability isDirected allowSelfLoops rng pos
    if b.1.isConnected then ([b.1], b.1, (ma : Int) + 1, b.2)
    else if 0 < ma then
      let r := erAttempts nodeCount edgeProbability isDirected allowSelfLoops rng ma b.2
      (b.1 :: r.1, r.2.1, r.2.2.1, r.2.2.2)
    else ([b.1], b.1, 0, b.2)

/-- GraphGenerator.generateErdosRenyiRandomGraph: run the do-while (a single
candidate when requireConnected is false) and throw exactly when the final
maxAttempts is 0. -/
def GraphGenerator.generateErdosRenyiRandomGraph (nodeCount : Nat) (edgeProbability : ℚ)
    (isDirected allowSelfLoops requireConnected : Bool) (maxAttempts : Nat)
    (rng : Nat → ℚ) (pos : Nat) : Except Unit Graph :=
  if requireConnected then
    let r := erAttempts nodeCount edgeProbability isDirected allowSelfLoops rng maxAttempts pos
    if r.2.2.1 = 0 then .error () else .ok r.2.1
  else
    let b := buildErdosRenyi nodeCount edgeProbability isDirected allowSelfLoops rng pos
    if maxAttempts = 0 then .error () else .ok b.1

/-! Shallow embedding of robot.ts: robots and the four coordinator variants. -/

/-- Robot activity state used by the two random-walk strategies. -/
inductive RobotActivity
  | active
  | discarded
  deriving DecidableEq

/-- The Robot record of robot.ts. portsTraversed stores ports (non-negative)
and blocked attempts encoded as -port - 100. -/
structure Robot where
  id : Nat
  startNode : Nat
  currentNode : Nat
  portsTraversed : List Int
  deriving DecidableEq

/-- A RandomWalkRobot: Robot plus the activity state. -/
structure RWRobot where
  id : Nat
  startNode : Nat
  currentNode : Nat
  portsTraversed : List Int
  state : RobotActivity
  deriving DecidableEq

/-- The test stepNumber % lambda === 0 guarding the reshuffle. lambda none
models Infinity (a finite n has n % Infinity = n, so the test becomes
n === 0); a finite lambda of 0 would give NaN === 0, i.e. false (the
configuration layer rejects 0 anyway). -/
def shuffleNow (stepNumber : Nat) (lambda : Option Nat) : Bool :=
  match lambda with
  | none => stepNumber == 0
  | some 0 => false
  | some l => stepNumber % l == 0

/-- Lines shared by every coordinator's step(): when stepNumber % lambda
=== 0, push {stepNumber, deepCopyNodes()} onto graphHistory and then
reshuffle the edge signs. Returns (graph, graphHistory, random cursor). -/
def stepPrologue (g : Graph) (history : List (Nat × List Vertex)) (stepNumber : Nat)
    (lambda : Option Nat) (p : ℚ) (rng : Nat → ℚ) (pos : Nat) :
    Graph × List (Nat × List Vertex) × Nat :=
  if shuffleNow stepNumber lambda then
    let s := g.setRandomEdgeWeightSigns p rng pos
    (s.1, history ++ [(stepNumber, g.deepCopyNodes)], s.2)
  else (g, history, pos)

/-- The robots.forEach pattern of every step(): thread the shared mutable
state through the per-robot body, collecting the updated robots in order. -/
def moveFold (body : σ → α → α × σ) (xs : List α) (s : σ) : List α × σ :=
  xs.foldl (fun acc x => (acc.1 ++ [(body acc.2 x).1], (body acc.2 x).2)) ([], s)

/-- createRobots(n, startingNode): n fresh robots at the starting node with
consecutive ids from the current robotIdCount. -/
def createRobots (n startingNode idCount : Nat) : List Robot :=
  (List.range n).map (fun i => ⟨idCount + i, startingNode, startingNode, []⟩)

/-- Coordinator state for the two random-walk variants (RobotCoordinator
fields plus the explicit random stream and cursor). -/
structure RWCoord where
  graph : Graph
  graphHistory : List (Nat × List Vertex)
  visitedNodes : List Bool
  robots : List RWRobot
  robotIdCount : Nat
  stepNumber : Nat
  lambda : Option Nat
  edgeSurvivalProbability : ℚ
  numberOfRobotsToGenerate : Nat
  robotStartingNode : Nat
  rng : Nat → ℚ
  rpos : Nat

/-- Per-robot body of RandomWalkDispersionRobotCoordinator.step(). The
source iterates over the filtered active robots and leaves the others
untouched, which the state guard below reproduces. A robot standing on an
unvisited node marks it and is discarded without moving; otherwise it draws
a uniform port, records a blocked attempt on a negative weight, and moves
through the port otherwise. Shared state: (visitedNodes, random cursor). -/
def rwdMoveBody (g : Graph) (rng : Nat → ℚ) (acc : List Bool × Nat) (r : RWRobot) :
    RWRobot × List Bool × Nat :=
  if r.state = RobotActivity.discarded then (r, acc)
  else if acc.1.getD r.currentNode false = false then
    ({ r with state := RobotActivity.discarded }, acc.1.set r.currentNode true, acc.2)
  else
    let numberOfPorts := g.getNumberOfPorts r.currentNode
    if numberOfPorts = 0 then ({ r with state := RobotActivity.discarded }, acc)
    else
      let port := (Rat.floor (ratMulNat (rng acc.2) numberOfPorts)).toNat
      if g.getEdgeWeightFromPort r.currentNode port < 0 then
        ({ r with portsTraversed := r.portsTraversed ++ [-(port : Int) - 100] }, acc.1, acc.2 + 1)
      else
        ({ r with currentNode := g.getAdjacentNodeFromPort r.currentNode port,
                  portsTraversed := r.portsTraversed ++ [(port : Int)] }, acc.1, acc.2 + 1)

/-- RandomWalkDispersionRobotCoordinator.step(). -/
def rwdStep (s : RWCoord) : RWCoord :=
  let pro := stepPrologue s.graph s.graphHistory s.stepNumber s.lambda s.edgeSurvivalProbability s.rng s.rpos
  let mv := moveFold (rwdMoveBody pro.1 s.rng) s.robots (s.visitedNodes, pro.2.2)
  { s with graph := pro.1, graphHistory := pro.2.1, robots := mv.1,
           visitedNodes := mv.2.1, rpos := mv.2.2, stepNumber := s.stepNumber + 1 }

/-- Per-robot body of RandomWalkExplorationRobotCoordinator.step(): every
robot (the source does not filter by state here) first marks its CURRENT
node visited, then moves exactly like the dispersion walk but without being
discarded on arrival at a new node. -/
def rweMoveBody (g : Graph) (rng : Nat → ℚ) (acc : List Bool × Nat) (r : RWRobot) :
    RWRobot × List Bool × Nat :=
  let vis := if acc.1.getD r.currentNode false = false then acc.1.set r.currentNode true else acc.1
  let numberOfPorts := g.getNumberOfPorts r.currentNode
  if numberOfPorts = 0 then ({ r with state := RobotActivity.discarded }, vis, acc.2)
  else
    let port := (Rat.floor (ratMulNat (rng acc.2) numberOfPorts)).toNat
    if g.getEdgeWeightFromPort r.currentNode port < 0 then
      ({ r with portsTraversed := r.portsTraversed ++ [-(port : Int) - 100] }, vis, acc.2 + 1)
    else
      ({ r with currentNode := g.getAdjacentNodeFromPort r.currentNode port,
                portsTraversed := r.portsTraversed ++ [(port : Int)] }, vis, acc.2 + 1)

/-- RandomWalkExplorationRobotCoordinator.step(). -/
def rweStep (s : RWCoord) : RWCoord :=
  let pro := stepPrologue s.graph s.graphHistory s.stepNumber s.lambda s.edgeSurvivalProbability s.rng s.rpos
  let mv := moveFold (rweMoveBody pro.1 s.rng) s.robots (s.visitedNodes, pro.2.2)
  { s with graph := pro.1, graphHistory := pro.2.1, robots := mv.1,
           visitedNodes := mv.2.1, rpos := mv.2.2, stepNumber := s.stepNumber + 1 }

/-- computeBoundaryNodesOnPort, shared by the two global-communication
variants: 1 when this node or the subtree root is unvisited, otherwise the
sum over the subtree root's child ports. The source recursion descends the
spanning structure; the fuel passed at every call site (nodeCount + 1)
dominates its depth on the tree-shaped inputs the source assumes. -/
def computeBoundaryNodesOnPort (g : Graph) (vis : List Bool) (cps : Nat → List Nat) :
    Nat → Nat → Nat → Nat
  | 0, _, _ => 0
  | fuel + 1, nodeId, port =>
    let subtreeRoot := g.getAdjacentNodeFromPort nodeId port
    if vis.getD nodeId false = false ∨ vis.getD subtreeRoot false = false then 1
    else ((cps subtreeRoot).map
      (fun childPort => computeBoundaryNodesOnPort g vis cps fuel subtreeRoot childPort)).sum

/-- The robotsToEachChildPort.forEach slicing loop: the first count robots
on the node are planned onto the first child port, the next batch onto the
second, and so on (slice(robotIndex, count + robotIndex)). -/
def assignPlannedPorts (plans : Nat → Option Int) :
    List (Nat × Nat) → List Robot → Nat → Option Int
  | [], _ => plans
  | (count, childPort) :: rest, robots =>
    let plans := (robots.take count).foldl
      (fun pl r => fun x => if x = r.id then some (childPort : Int) else pl x) plans
    assignPlannedPorts plans rest (robots.drop count)

/-- Robot distribution over child ports, shared by both global variants:
floor-proportional shares of the boundary counts, the rounding remainder
added to the first port attaining the maximal boundary count, then the
slicing assignment. Only reached when the boundary sum is nonzero. -/
def distributeRobots (robotsOnNode : List Robot) (boundaryCount : List Nat) (cp : List Nat)
    (plans : Nat → Option Int) : Nat → Option Int :=
  let robotsToEachChildPort := boundaryCount.map
    (fun count => (Rat.floor (ratShare count boundaryCount.sum robotsOnNode.length)).toNat)
  let rsum := robotsToEachChildPort.sum
  let robotsToEachChildPort :=
    if rsum ≠ robotsOnNode.length then
      let maxBoundaryNumber := boundaryCount.foldl (fun a b => max a b) 0
      let maxIdx := (boundaryCount.findIdx? (fun c => c == maxBoundaryNumber)).getD 0
      modifyIdx (fun c => c + (robotsOnNode.length - rsum)) robotsToEachChildPort maxIdx
    else robotsToEachChildPort
  assignPlannedPorts plans (robotsToEachChildPort.zip cp) robotsOnNode

/-- Coordinator state for TreeExplorationWithGlobalCommunication: the base
fields plus the dense parentPorts / childPorts tables built by treeify. -/
structure TreeCoord where
  graph : Graph
  graphHistory : List (Nat × List Vertex)
  visitedNodes : List Bool
  robots : List Robot
  robotIdCount : Nat
  stepNumber : Nat
  lambda : Option Nat
  edgeSurvivalProbability : ℚ
  numberOfRobotsToGenerate : Nat
  robotStartingNode : Nat
  parentPorts : List Int
  childPorts : List (List Nat)
  rng : Nat → ℚ
  rpos : Nat

/-- Body of the tree coordinator's planning while-loop for one node:
boundary counts of its child ports, then either plannedPort -1 for every
robot here (fully explored branch) or the proportional distribution. -/
def treePlanNode (g : Graph) (vis : List Bool) (childPorts : List (List Nat)) (robots : List Robot)
    (plans : Nat → Option Int) (visitedNode : Nat) : Nat → Option Int :=
  let cp := childPorts.getD visitedNode []
  let boundaryCount := cp.map (fun childPort =>
    computeBoundaryNodesOnPort g vis (fun i => childPorts.getD i []) (g.getNodeCount + 1) visitedNode childPort)
  let robotsOnNode := robots.filter (fun r => r.currentNode == visitedNode)
  if boundaryCount.sum = 0 then
    robotsOnNode.foldl (fun pl r => fun x => if x = r.id then some (-1) else pl x) plans
  else
    distributeRobots robotsOnNode boundaryCount cp plans

/-- The node sequence of the planning while-loop: it starts at node 0
unconditionally and then hops to visitedNodes.indexOf(true, current + 1)
until that is -1, i.e. through every later index holding true. -/
def treePlanNodeSeq (vis : List Bool) : List Nat :=
  0 :: (List.range vis.length).filter (fun i => decide (0 < i) && vis.getD i false)

/-- The whole planning phase of the tree coordinator's step. -/
def treePlans (g : Graph) (vis : List Bool) (childPorts : List (List Nat)) (robots : List Robot) :
    Nat → Option Int :=
  (treePlanNodeSeq vis).foldl (treePlanNode g vis childPorts robots) (fun _ => none)

/-- Per-robot body of the tree coordinator's move loop: plannedPort -1
skips, a negative weight at the planned port records the blocked attempt,
and otherwise the robot moves, appends the port and marks its new node
visited. A robot without a planned entry would fault in the source
(plannedPorts[id] undefined is used as a port); every robot of a reachable
state has an entry, and the embedding makes such a robot skip. -/
def treeMoveBody (g : Graph) (plans : Nat → Option Int) (vis : List Bool) (r : Robot) :
    Robot × List Bool :=
  match plans r.id with
  | none => (r, vis)
  | some plannedPort =>
    if plannedPort = -1 then (r, vis)
    else if g.getEdgeWeightFromPort r.currentNode plannedPort.toNat < 0 then
      ({ r with portsTraversed := r.portsTraversed ++ [-plannedPort - 100] }, vis)
    else
      let newNode := g.getAdjacentNodeFromPort r.currentNode plannedPort.toNat
      ({ r with currentNode := newNode, portsTraversed := r.portsTraversed ++ [plannedPort] },
       if vis.getD newNode false = false then vis.set newNode true else vis)

/-- The graph a tree step works on after the shared reshuffle prologue. -/
def treeStepGraph (s : TreeCoord) : Graph :=
  (stepPrologue s.graph s.graphHistory s.stepNumber s.lambda s.edgeSurvivalProbability s.rng s.rpos).1

/-- The plannedPorts table a tree step computes before moving the robots. -/
def treeStepPlans (s : TreeCoord) : Nat → Option Int :=
  treePlans (treeStepGraph s) s.visitedNodes s.childPorts s.robots

/-- TreeExplorationWithGlobalCommunicationRobotCoordinator.step():
reshuffle prologue, planning over the visited nodes, the move loop, and a
fresh batch of robots injected at node 0. -/
def treeStep (s : TreeCoord) : TreeCoord :=
  let pro := stepPrologue s.graph s.graphHistory s.stepNumber s.lambda s.edgeSurvivalProbability s.rng s.rpos
  let mv := moveFold (treeMoveBody (treeStepGraph s) (treeStepPlans s)) s.robots s.visitedNodes
  { s with graph := pro.1, graphHistory := pro.2.1,
           robots := mv.1 ++ createRobots s.numberOfRobotsToGenerate 0 s.robotIdCount,
           robotIdCount := s.robotIdCount + s.numberOfRobotsToGenerate,
           visitedNodes := mv.2, rpos := pro.2.2, stepNumber := s.stepNumber + 1 }

/-- Coordinator state for ArbitraryGraphExplorationWithGlobalCommunication:
parentPorts is dense (initialised to -1), childPorts a sparse memo table. -/
structure ArbCoord where
  graph : Graph
  graphHistory : List (Nat × List Vertex)
  visitedNodes : List Bool
  robots : List Robot
  robotIdCount : Nat
  stepNumber : Nat
  lambda : Option Nat
  edgeSurvivalProbability : ℚ
  numberOfRobotsToGenerate : Nat
  robotStartingNode : Nat
  parentPorts : List Int
  childPorts : Nat → Option (List Nat)
  rng : Nat → ℚ
  rpos : Nat

/-- The unique current nodes of the robots in first-occurrence order
(filter((nodeId, index, array) => array.indexOf(nodeId) === index)). -/
def nodesWithRobots (robots : List Robot) : List Nat :=
  (robots.map (fun r => r.currentNode)).foldl
    (fun acc x => if x ∈ acc then acc else acc ++ [x]) []

/-- Body of the arbitrary-graph planning loop for one occupied node: memoise
its child ports if absent, then plan exactly like the tree variant. The
boundary recursion reads the memo table; a missing entry reads as empty
(there the source would fault, but its comments argue every visited node's
entry was already computed). -/
def arbPlanNode (g : Graph) (vis : List Bool) (robots : List Robot) (parentPorts : List Int)
    (acc : (Nat → Option (List Nat)) × (Nat → Option Int)) (nodeWithRobot : Nat) :
    (Nat → Option (List Nat)) × (Nat → Option Int) :=
  let cpa := match acc.1 nodeWithRobot with
    | some _ => acc.1
    | none => fun x =>
        if x = nodeWithRobot then
          some (g.getChildPorts nodeWithRobot (parentPorts.getD nodeWithRobot (-1)))
        else acc.1 x
  let cp := (cpa nodeWithRobot).getD []
  let boundaryCount := cp.map (fun childPort =>
    computeBoundaryNodesOnPort g vis (fun i => (cpa i).getD []) (g.getNodeCount + 1) nodeWithRobot childPort)
  let robotsOnNode := robots.filter (fun r => r.currentNode == nodeWithRobot)
  let plans :=
    if boundaryCount.sum = 0 then
      robotsOnNode.foldl (fun pl r => fun x => if x = r.id then some (-1) else pl x) acc.2
    else distributeRobots robotsOnNode boundaryCount cp acc.2
  (cpa, plans)

/-- The whole planning phase of the arbitrary-graph step: fold over the
occupied nodes, threading the childPorts memo table and plannedPorts. -/
def arbPlans (g : Graph) (vis : List Bool) (robots : List Robot) (parentPorts : List Int)
    (cpa : Nat → Option (List Nat)) : (Nat → Option (List Nat)) × (Nat → Option Int) :=
  (nodesWithRobots robots).foldl (arbPlanNode g vis robots parentPorts) (cpa, fun _ => none)

/-- Per-robot body of the arbitrary-graph move loop: as the tree variant,
plus on a successful move the arrival port becomes the new node's parent
port when none is known, and the new node's child ports are memoised and
filtered to drop ports leading to already-visited nodes (the source
repeatedly reassigns the filtered array while forEach walks the original).
Shared state: (visitedNodes, parentPorts, childPorts memo). -/
def arbMoveBody (g : Graph) (plans : Nat → Option Int)
    (acc : List Bool × List Int × (Nat → Option (List Nat))) (r : Robot) :
    Robot × List Bool × List Int × (Nat → Option (List Nat)) :=
  match plans r.id with
  | none => (r, acc)
  | some plannedPort =>
    if plannedPort = -1 then (r, acc)
    else if g.getEdgeWeightFromPort r.currentNode plannedPort.toNat < 0 then
      ({ r with portsTraversed := r.portsTraversed ++ [-plannedPort - 100] }, acc)
    else
      let vis := acc.1
      let plannedNode := g.getAdjacentNodeFromPort r.currentNode plannedPort.toNat
      let pp :=
        if acc.2.1.getD plannedNode 0 = -1 then
          acc.2.1.set plannedNode (g.getPortFromAdjacentNode plannedNode r.currentNode)
        else acc.2.1
      let cpa := match acc.2.2 plannedNode with
        | some _ => acc.2.2
        | none =>
          let base := g.getChildPorts plannedNode (pp.getD plannedNode (-1))
          let filtered := base.foldl
            (fun cur childPort =>
              if vis.getD (g.getAdjacentNodeFromPort plannedNode childPort) false then
                cur.filter (fun q => q != childPort)
              else cur)
            base
          fun x => if x = plannedNode then some filtered else acc.2.2 x
      ({ r with currentNode := plannedNode, portsTraversed := r.portsTraversed ++ [plannedPort] },
       (if vis.getD plannedNode false = false then vis.set plannedNode true else vis), pp, cpa)

/-- ArbitraryGraphExplorationWithGlobalCommunicationRobotCoordinator.step(). -/
def arbStep (s : ArbCoord) : ArbCoord :=
  let pro := stepPrologue s.graph s.graphHistory s.stepNumber s.lambda s.edgeSurvivalProbability s.rng s.rpos
  let pl := arbPlans pro.1 s.visitedNodes s.robots s.parentPorts s.childPorts
  let mv := moveFold (arbMoveBody pro.1 pl.2) s.robots (s.visitedNodes, s.parentPorts, pl.1)
  { s with graph := pro.1, graphHistory := pro.2.1,
           robots := mv.1 ++ createRobots s.numberOfRobotsToGenerate 0 s.robotIdCount,
           robotIdCount := s.robotIdCount + s.numberOfRobotsToGenerate,
           visitedNodes := mv.2.1, parentPorts := mv.2.2.1, childPorts := mv.2.2.2,
           rpos := pro.2.2, stepNumber := s.stepNumber + 1 }

/-! Derived predicates used to state the claims, and concrete states used by
counterexamples and witnesses. -/

/-- The weight of the mirror edge of an edge a -> b: the FIRST edge stored
at b whose targetNode points back to a, exactly as setEdgeWeight's find
would locate it (none when no such edge exists). -/
def mirrorWeight (g : Graph) (a b : Nat) : Option ℚ :=
  ((g.edgesAt b).find? (fun e => e.targetNode == a)).map (fun e => e.weight)

/-- Every edge of the graph has a mirror edge of equal weight (equal weight
is exactly equal magnitude together with equal sign). -/
def MirrorConsistent (g : Graph) : Prop :=
  ∀ a, a < g.nodes.length → ∀ e ∈ g.edgesAt a, mirrorWeight g a e.targetNode = some e.weight

/-- No node's edge list mentions the same target twice: no parallel edges
and no undirected self-loop (addEdge stores the latter as a doubled entry). -/
def NodupTargets (g : Graph) : Prop :=
  ∀ a, a < g.nodes.length → ((g.edgesAt a).map Edge.targetNode).Nodup

/-- Decidability of MirrorConsistent through the equivalent bounded list
quantification, so that concrete instances evaluate. -/
instance (g : Graph) : Decidable (MirrorConsistent g) :=
  decidable_of_iff
    (∀ a ∈ List.range g.nodes.length, ∀ e ∈ g.edgesAt a,
      mirrorWeight g a e.targetNode = some e.weight)
    (by
      unfold MirrorConsistent
      exact ⟨fun h a ha e he => h a (List.mem_range.mpr ha) e he,
        fun h a ha e he => h a (List.mem_range.mp ha) e he⟩)

/-- Decidability of NodupTargets through the equivalent bounded list
quantification, so that concrete instances evaluate. -/
instance (g : Graph) : Decidable (NodupTargets g) :=
  decidable_of_iff
    (∀ a ∈ List.range g.nodes.length, ((g.edgesAt a).map Edge.targetNode).Nodup)
    (by
      unfold NodupTargets
      exact ⟨fun h a ha => h a (List.mem_range.mpr ha),
        fun h a ha => h a (List.mem_range.mp ha)⟩)

/-- g' differs from g at most in the signs of edge weights: directedness,
node count, node weights, and each edge list's targets and weight
magnitudes are pointwise unchanged. -/
def SameShapeAbs (g g' : Graph) : Prop :=
  g'.isDirected = g.isDirected ∧
  g'.nodes.length = g.nodes.length ∧
  (∀ a, (g'.nodes.getD a ⟨0, []⟩).weight = (g.nodes.getD a ⟨0, []⟩).weight) ∧
  (∀ a, (g'.edgesAt a).map (fun e => (e.targetNode, mathAbs e.weight)) =
        (g.edgesAt a).map (fun e => (e.targetNode, mathAbs e.weight)))

/-- Pointwise order on visited-flag arrays: whatever is marked true in the
first is marked true in the second. -/
def visitedLE (v w : List Bool) : Prop :=
  ∀ i, v.getD i false = true → w.getD i false = true

/-- A constant random stream of 1/2 (an arbitrary in-range draw). -/
def rngHalf : Nat → ℚ := fun _ => Rat.divInt 1 2

/-- A constant random stream of 9/10 (a draw that loses against survival
probability 1/2, flipping the sign negative). -/
def rng910 : Nat → ℚ := fun _ => Rat.divInt 9 10

/-- A constant random stream of 0 (a draw that always wins). -/
def rngZero : Nat → ℚ := fun _ => 0

/-- The undirected two-node path graph 0 -- 1. -/
def path2 : Graph := GraphGenerator.generatePath 2 false

/-- Directed graph with three nodes and edges 0 -> 1 and 0 -> 2: the
failing input of removeNode(1). -/
def egC1 : Graph := ⟨[⟨1, [⟨1, 1⟩, ⟨1, 2⟩]⟩, ⟨1, []⟩, ⟨1, []⟩], true⟩

/-- The undirected one-node complete graph with self-loops allowed: its
single addEdge(0,0) stores TWO copies of the self-loop at node 0. -/
def egSelfLoop : Graph := GraphGenerator.generateCompleteGraph 1 false true

/-- An undirected-flagged graph whose mirror edges carry unequal
magnitudes (5 one way, 3 back): a legal value of the Graph data type,
since nothing ties the two stored directions together. -/
def egAsym : Graph := ⟨[⟨1, [⟨5, 1⟩]⟩, ⟨1, [⟨3, 0⟩]⟩], false⟩

/-- A random-walk coordinator state on path2: one active robot at node 0,
node 0 visited, first step still to run, lambda Infinity, survival
probability 1. -/
def egRW : RWCoord :=
  { graph := path2
    graphHistory := []
    visitedNodes := [true, false]
    robots := [⟨0, 0, 0, [], RobotActivity.active⟩]
    robotIdCount := 1
    stepNumber := 0
    lambda := none
    edgeSurvivalProbability := 1
    numberOfRobotsToGenerate := 1
    robotStartingNode := 0
    rng := rngHalf
    rpos := 0 }

/-- A tree coordinator state on path2 (a 2-node tree rooted at 0): one
robot at the root, node 1 unexplored, mid-run (step 3 of lambda 5, so no
reshuffle fires). -/
def egTree : TreeCoord :=
  { graph := path2
    graphHistory := []
    visitedNodes := [true, false]
    robots := [⟨0, 0, 0, []⟩]
    robotIdCount := 1
    stepNumber := 3
    lambda := some 5
    edgeSurvivalProbability := 1
    numberOfRobotsToGenerate := 1
    robotStartingNode := 0
    parentPorts := [-1, 0]
    childPorts := [[0], []]
    rng := rngHalf
    rpos := 0 }

/-- The same tree coordinator state before its first step (stepNumber 0)
with lambda Infinity. -/
def egTree0 : TreeCoord :=
  { egTree with stepNumber := 0, lambda := none }

/-- An arbitrary-graph coordinator state on path2 before its first step:
one robot at node 0, lambda Infinity, lazy tables still empty. -/
def egArb : ArbCoord :=
  { graph := path2
    graphHistory := []
    visitedNodes := [true, false]
    robots := [⟨0, 0, 0, []⟩]
    robotIdCount := 1
    stepNumber := 0
    lambda := none
    edgeSurvivalProbability := 1
    numberOfRobotsToGenerate := 0
    robotStartingNode := 0
    parentPorts := [-1, -1]
    childPorts := fun _ => none
    rng := rngHalf
    rpos := 0 }

/-- The effect of setFirstWeight on one record of a duplicate-free edge
list: reweight the edge matching the target, keep every other edge. -/
def reweight (targetId : Nat) (w : ℚ) (e : Edge) : Edge :=
  if e.targetNode = targetId then { e with weight := w } else e

/-- The per-node action of an undirected setEdgeWeight(s, t, w) on a
duplicate-free graph: at node s the (s -> t) entry is reweighted, at node
t the (t -> s) entry, elsewhere nothing changes. -/
def sewAction (s t : Nat) (w : ℚ) (a : Nat) (e : Edge) : Edge :=
  (if a = t then reweight s w else id) ((if a = s then reweight t w else id) e)

/-! Helper lemmas. -/

theorem getD_set_true (v : List Bool) : ∀ (j i : Nat),
    v.getD i false = true → (v.set j true).getD i false = true := by
  induction v with
  | nil => intro j i h; simp at h
  | cons b bs ih =>
    intro j i h
    cases j with
    | zero =>
      cases i with
      | zero => rfl
      | succ i => simpa using h
    | succ j =>
      cases i with
      | zero => simpa using h
      | succ i => simpa using ih j i (by simpa using h)

theorem getD_set_self_true (v : List Bool) : ∀ (j : Nat), j < v.length →
    (v.set j true).getD j false = true := by
  induction v with
  | nil => intro j h; simp at h
  | cons b bs ih =>
    intro j h
    cases j with
    | zero => rfl
    | succ j => simpa using ih j (by simpa using h)

theorem length_set_eq (v : List Bool) (j : Nat) (x : Bool) : (v.set j x).length = v.length :=
  List.length_set v j x

theorem visitedLE_refl (v : List Bool) : visitedLE v v := fun _ h => h

theorem visitedLE_trans {u v w : List Bool} (h1 : visitedLE u v) (h2 : visitedLE v w) :
    visitedLE u w := fun i h => h2 i (h1 i h)

theorem visitedLE_set_true (v : List Bool) (j : Nat) : visitedLE v (v.set j true) :=
  fun i h => getD_set_true v j i h

theorem foldl_pres {β α : Type _} (f : β → α → β) (P : β → Prop)
    (hstep : ∀ b a, P b → P (f b a)) : ∀ (xs : List α) (b : β), P b → P (xs.foldl f b) := by
  intro xs
  induction xs with
  | nil => intro b hb; exact hb
  | cons x xs ih => intro b hb; exact ih (f b x) (hstep b x hb)

theorem moveFold_aux {α σ : Type _} (body : σ → α → α × σ) :
    ∀ (xs : List α) (l0 : List α) (s : σ),
      xs.foldl (fun acc x => (acc.1 ++ [(body acc.2 x).1], (body acc.2 x).2)) (l0, s) =
      (l0 ++ (moveFold body xs s).1, (moveFold body xs s).2) := by
  intro xs
  induction xs with
  | nil => intro l0 s; simp [moveFold]
  | cons x xs ih =>
    intro l0 s
    rw [List.foldl_cons, ih]
    conv_rhs => rw [moveFold, List.foldl_cons, ih]
    simp

theorem moveFold_cons {α σ : Type _} (body : σ → α → α × σ) (x : α) (xs : List α) (s : σ) :
    moveFold body (x :: xs) s =
      ((body s x).1 :: (moveFold body xs (body s x).2).1,
       (moveFold body xs (body s x).2).2) := by
  simp only [moveFold, List.foldl_cons]
  rw [moveFold_aux]
  simp [moveFold]

theorem moveFold_snd_pres {α σ : Type _} (body : σ → α → α × σ) (P : σ → Prop)
    (hstep : ∀ s a, P s → P ((body s a).2)) :
    ∀ (xs : List α) (s : σ), P s → P ((moveFold body xs s).2) := by
  intro xs
  induction xs with
  | nil => intro s hs; simpa [moveFold] using hs
  | cons x xs ih =>
    intro s hs
    rw [moveFold_cons]
    exact ih (body s x).2 (hstep s x hs)

theorem moveFold_fst_map {α σ : Type _} (body : σ → α → α × σ) (f : α → α)
    (hf : ∀ s a, (body s a).1 = f a) :
    ∀ (xs : List α) (s : σ), (moveFold body xs s).1 = xs.map f := by
  intro xs
  induction xs with
  | nil => intro s; simp [moveFold]
  | cons x xs ih =>
    intro s
    rw [moveFold_cons]
    simp [hf, ih]

/-! Claim C1. -/

/-- C1: removeNode(k) is claimed to remove the vertex, remove every edge
referencing k, and decrement every targetNode greater than k. On the
directed graph with edges 0 -> 1 and 0 -> 2, removeNode(1) leaves node 0
with the single edge still TARGETING 2 (a now out-of-range id in the
remaining 2-node graph): the splice inside forEach shifts that edge into
the just-visited slot, so it is skipped and never decremented. The second
conjunct records that the result differs from the claimed one (the edge
decremented to target 1). -/
theorem c1_removeNode_failing_input :
    (egC1.removeNode 1).nodes = [⟨1, [⟨1, 2⟩]⟩, ⟨1, []⟩] ∧
    (egC1.removeNode 1).nodes ≠ [⟨1, [⟨1, 1⟩]⟩, ⟨1, []⟩] := by
  constructor
  · decide
  · decide

/-! Claim C3. -/

/-- C3 counterexample: on the undirected 5-node cycle the claimed results
(a 4-node path and distance 3 from node 0 to node 4) are false, because
the closing edge 4 -- 0 makes the two nodes adjacent. -/
theorem c3_counterexample :
    ¬ (((GraphGenerator.generateCycle 5 false).getShortestPath 0 4).length = 4 ∧
       (GraphGenerator.generateCycle 5 false).getDistanceBetweenNodes 0 4 = some 3) := by
  decide

/-- C3 amended: on generateCycle(5) undirected, getShortestPath(0, 4)
returns the 2-node path [0, 4] (1 edge) and getDistanceBetweenNodes(0, 4)
returns 1, matching each other. -/
theorem c3_cycle5_shortest_path :
    (GraphGenerator.generateCycle 5 false).getShortestPath 0 4 = [0, 4] ∧
    ((GraphGenerator.generateCycle 5 false).getShortestPath 0 4).length = 2 ∧
    (GraphGenerator.generateCycle 5 false).getDistanceBetweenNodes 0 4 = some 1 := by
  refine ⟨by decide, by decide, by decide⟩

/-! Claim C8. -/

/-- C8: deepCopyNodes returns a vertex array structurally equal to the
graph's nodes at the time of the call. Under the embedding's value
semantics this snapshot is a fixed value, so no later mutation of the
graph can change it, which is the no-aliasing half of the claim; the
JSON-round-trip clone is the structural copy proved here. -/
theorem c8_deepCopyNodes_eq (g : Graph) : g.deepCopyNodes = g.nodes := by
  have hv : ∀ v : Vertex, copyVertex v = v := by
    intro v
    show (⟨v.weight, v.edges.map copyEdge⟩ : Vertex) = v
    have he : v.edges.map copyEdge = v.edges :=
      (List.map_congr_left (fun e _ => rfl)).trans (List.map_id _)
    rw [he]
  calc g.deepCopyNodes = g.nodes.map copyVertex := rfl
    _ = g.nodes.map id := List.map_congr_left (fun v _ => hv v)
    _ = g.nodes := List.map_id _

/-! Claim C10. -/

/-- C10: for valid node ids, getEdgeWeight returns 0 when no edge from
source to target exists (find returns nothing) and otherwise the weight of
the FIRST matching edge in the source's edge list. -/
theorem c10_getEdgeWeight_total (g : Graph) (s t : Nat)
    (_hs : s < g.nodes.length) (_ht : t < g.nodes.length) :
    ((g.edgesAt s).find? (fun e => e.targetNode == t) = none → g.getEdgeWeight s t = 0) ∧
    (∀ e, (g.edgesAt s).find? (fun e => e.targetNode == t) = some e →
      g.getEdgeWeight s t = e.weight) := by
  constructor
  · intro h
    simp [Graph.getEdgeWeight, h]
  · intro e h
    simp [Graph.getEdgeWeight, h]

/-- C10 witness: in the directed failing-input graph, node 1 has no edge to
node 0 and getEdgeWeight(1, 0) evaluates to 0 without failing. -/
theorem c10_witness :
    ((egC1.edgesAt 1).find? (fun e => e.targetNode == 0) = none → egC1.getEdgeWeight 1 0 = 0) ∧
    (∀ e, (egC1.edgesAt 1).find? (fun e => e.targetNode == 0) = some e →
      egC1.getEdgeWeight 1 0 = e.weight) :=
  c10_getEdgeWeight_total egC1 1 0 (by decide) (by decide)

/-! Claim C9. -/

/-- C9: whatever lambda the configuration accepts (a positive integer or
Infinity, i.e. anything but a literal 0), a step run at stepNumber 0 pushes
exactly one snapshot (0, deepCopyNodes of the pre-reshuffle graph) onto
graphHistory and replaces the graph by the setRandomEdgeWeightSigns result,
because 0 % lambda is 0 even when lambda is Infinity; so signs are redrawn
at step 0 even in a run configured with no reshuffling, in all three
coordinator variants that share this prologue. -/
theorem c9_step_zero_reshuffles :
    (∀ s : RWCoord, s.stepNumber = 0 → s.lambda ≠ some 0 →
      (rwdStep s).graphHistory = s.graphHistory ++ [(0, s.graph.deepCopyNodes)] ∧
      (rwdStep s).graph =
        (s.graph.setRandomEdgeWeightSigns s.edgeSurvivalProbability s.rng s.rpos).1) ∧
    (∀ s : TreeCoord, s.stepNumber = 0 → s.lambda ≠ some 0 →
      (treeStep s).graphHistory = s.graphHistory ++ [(0, s.graph.deepCopyNodes)] ∧
      (treeStep s).graph =
        (s.graph.setRandomEdgeWeightSigns s.edgeSurvivalProbability s.rng s.rpos).1) ∧
    (∀ s : ArbCoord, s.stepNumber = 0 → s.lambda ≠ some 0 →
      (arbStep s).graphHistory = s.graphHistory ++ [(0, s.graph.deepCopyNodes)] ∧
      (arbStep s).graph =
        (s.graph.setRandomEdgeWeightSigns s.edgeSurvivalProbability s.rng s.rpos).1) := by
  have hsh : ∀ (lam : Option Nat), lam ≠ some 0 → shuffleNow 0 lam = true := by
    intro lam hl
    match lam with
    | none => rfl
    | some 0 => exact absurd rfl hl
    | some (l + 1) => simp [shuffleNow, Nat.zero_mod]
  refine ⟨fun s h0 hl => ?_, fun s h0 hl => ?_, fun s h0 hl => ?_⟩ <;>
    simp [rwdStep, treeStep, arbStep, stepPrologue, h0, hsh s.lambda hl]

/-- C9 witness: the three parts evaluated on concrete first-step states
(random-walk and arbitrary-graph with lambda Infinity, tree with lambda
Infinity), all with stepNumber 0. -/
theorem c9_witness :
    ((rwdStep egRW).graphHistory = egRW.graphHistory ++ [(0, egRW.graph.deepCopyNodes)] ∧
     (rwdStep egRW).graph =
       (egRW.graph.setRandomEdgeWeightSigns egRW.edgeSurvivalProbability egRW.rng egRW.rpos).1) ∧
    ((treeStep egTree0).graphHistory = egTree0.graphHistory ++ [(0, egTree0.graph.deepCopyNodes)] ∧
     (treeStep egTree0).graph =
       (egTree0.graph.setRandomEdgeWeightSigns egTree0.edgeSurvivalProbability egTree0.rng egTree0.rpos).1) ∧
    ((arbStep egArb).graphHistory = egArb.graphHistory ++ [(0, egArb.graph.deepCopyNodes)] ∧
     (arbStep egArb).graph =
       (egArb.graph.setRandomEdgeWeightSigns egArb.edgeSurvivalProbability egArb.rng egArb.rpos).1) :=
  ⟨c9_step_zero_reshuffles.1 egRW rfl (by decide),
   c9_step_zero_reshuffles.2.1 egTree0 rfl (by decide),
   c9_step_zero_reshuffles.2.2 egArb rfl (by decide)⟩

/-! Claim C6: per-robot move bodies only ever raise visited flags. -/

theorem rwdMoveBody_vis (g : Graph) (rng : Nat → ℚ) (acc : List Bool × Nat) (r : RWRobot) :
    visitedLE acc.1 (rwdMoveBody g rng acc r).2.1 := by
  simp only [rwdMoveBody]
  split_ifs <;> first
    | exact visitedLE_refl _
    | exact visitedLE_set_true _ _

theorem rweMoveBody_vis (g : Graph) (rng : Nat → ℚ) (acc : List Bool × Nat) (r : RWRobot) :
    visitedLE acc.1 (rweMoveBody g rng acc r).2.1 := by
  simp only [rweMoveBody]
  split_ifs <;> first
    | exact visitedLE_refl _
    | exact visitedLE_set_true _ _

theorem treeMoveBody_vis (g : Graph) (plans : Nat → Option Int) (vis : List Bool) (r : Robot) :
    visitedLE vis (treeMoveBody g plans vis r).2 := by
  simp only [treeMoveBody]
  rcases plans r.id with _ | p
  · exact visitedLE_refl _
  · dsimp only
    split_ifs <;> first
      | exact visitedLE_refl _
      | exact visitedLE_set_true _ _

theorem arbMoveBody_vis (g : Graph) (plans : Nat → Option Int)
    (acc : List Bool × List Int × (Nat → Option (List Nat))) (r : Robot) :
    visitedLE acc.1 (arbMoveBody g plans acc r).2.1 := by
  simp only [arbMoveBody]
  rcases plans r.id with _ | p
  · exact visitedLE_refl _
  · dsimp only
    split_ifs <;> first
      | exact visitedLE_refl _
      | exact visitedLE_set_true _ _

theorem rwdStep_vis_mono (s : RWCoord) : visitedLE s.visitedNodes (rwdStep s).visitedNodes := by
  simp only [rwdStep]
  refine moveFold_snd_pres _ (fun b => visitedLE s.visitedNodes b.1)
    (fun b a hb => visitedLE_trans hb (rwdMoveBody_vis _ _ b a)) s.robots _ ?_
  exact visitedLE_refl _

theorem rweStep_vis_mono (s : RWCoord) : visitedLE s.visitedNodes (rweStep s).visitedNodes := by
  simp only [rweStep]
  refine moveFold_snd_pres _ (fun b => visitedLE s.visitedNodes b.1)
    (fun b a hb => visitedLE_trans hb (rweMoveBody_vis _ _ b a)) s.robots _ ?_
  exact visitedLE_refl _

theorem treeStep_vis_mono (s : TreeCoord) : visitedLE s.visitedNodes (treeStep s).visitedNodes := by
  simp only [treeStep]
  refine moveFold_snd_pres _ (fun b => visitedLE s.visitedNodes b)
    (fun b a hb => visitedLE_trans hb (treeMoveBody_vis _ _ b a)) s.robots _ ?_
  exact visitedLE_refl _

theorem arbStep_vis_mono (s : ArbCoord) : visitedLE s.visitedNodes (arbStep s).visitedNodes := by
  simp only [arbStep]
  refine moveFold_snd_pres _ (fun b => visitedLE s.visitedNodes b.1)
    (fun b a hb => visitedLE_trans hb (arbMoveBody_vis _ _ b a)) s.robots _ ?_
  exact visitedLE_refl _

/-- C6: visitedNodes is monotonic in every coordinator variant: a node
marked true stays true after any number of further step() calls. -/
theorem c6_visited_monotonic :
    (∀ (s : RWCoord) (n i : Nat), s.visitedNodes.getD i false = true →
      (rwdStep^[n] s).visitedNodes.getD i false = true) ∧
    (∀ (s : RWCoord) (n i : Nat), s.visitedNodes.getD i false = true →
      (rweStep^[n] s).visitedNodes.getD i false = true) ∧
    (∀ (s : TreeCoord) (n i : Nat), s.visitedNodes.getD i false = true →
      (treeStep^[n] s).visitedNodes.getD i false = true) ∧
    (∀ (s : ArbCoord) (n i : Nat), s.visitedNodes.getD i false = true →
      (arbStep^[n] s).visitedNodes.getD i false = true) := by
  refine ⟨fun s n => ?_, fun s n => ?_, fun s n => ?_, fun s n => ?_⟩ <;>
    induction n generalizing s with
    | zero => intro i h; simpa using h
    | succ n ih =>
      intro i h
      rw [Function.iterate_succ_apply]
      first
        | exact ih (rwdStep s) i (rwdStep_vis_mono s i h)
        | exact ih (rweStep s) i (rweStep_vis_mono s i h)
        | exact ih (treeStep s) i (treeStep_vis_mono s i h)
        | exact ih (arbStep s) i (arbStep_vis_mono s i h)

/-- C6 witness: on the concrete states, node 0 is visited and remains
visited after a step of each of the four coordinators. -/
theorem c6_witness :
    (rwdStep^[1] egRW).visitedNodes.getD 0 false = true ∧
    (rweStep^[1] egRW).visitedNodes.getD 0 false = true ∧
    (treeStep^[1] egTree).visitedNodes.getD 0 false = true ∧
    (arbStep^[1] egArb).visitedNodes.getD 0 false = true :=
  ⟨c6_visited_monotonic.1 egRW 1 0 (by decide),
   c6_visited_monotonic.2.1 egRW 1 0 (by decide),
   c6_visited_monotonic.2.2.1 egTree 1 0 (by decide),
   c6_visited_monotonic.2.2.2 egArb 1 0 (by decide)⟩

/-! Claim C2. -/

/-- C2 counterexample: in the exploration coordinator's first step on
path2, the robot's intended port 0 carries weight 1 (non-negative), the
robot moves to node 1 and the port is appended, yet visitedNodes stays
[true, false]: visitedNodes at the robot's NEW node is not set within that
same step, contradicting the claim for the random-walk coordinators. -/
theorem c2_counterexample :
    0 ≤ (rweStep egRW).graph.getEdgeWeightFromPort 0 0 ∧
    (rweStep egRW).robots = [⟨0, 0, 1, [0], RobotActivity.active⟩] ∧
    (rweStep egRW).visitedNodes = [true, false] := by
  refine ⟨by decide, by decide, by decide⟩

theorem getD_set_ne {α : Type _} (v : List α) : ∀ (i j : Nat) (x d : α), j ≠ i →
    (v.set i x).getD j d = v.getD j d := by
  induction v with
  | nil => intro i j x d h; rfl
  | cons b bs ih =>
    intro i j x d h
    cases i with
    | zero =>
      cases j with
      | zero => exact absurd rfl h
      | succ j => rfl
    | succ i =>
      cases j with
      | zero => rfl
      | succ j => simpa using ih i j x d (fun hji => h (by rw [hji]))

theorem treeMoveBody_fst (g : Graph) (plans : Nat → Option Int) (vis vis' : List Bool)
    (r : Robot) : (treeMoveBody g plans vis r).1 = (treeMoveBody g plans vis' r).1 := by
  simp only [treeMoveBody]
  rcases plans r.id with _ | p
  · rfl
  · dsimp only
    split_ifs <;> rfl

theorem treeMoveBody_moves (g : Graph) (plans : Nat → Option Int) (vis : List Bool) (r : Robot)
    (p : Int) (hp : plans r.id = some p) (hp0 : 0 ≤ p)
    (hw : 0 ≤ g.getEdgeWeightFromPort r.currentNode p.toNat) :
    treeMoveBody g plans vis r =
      ({ r with currentNode := g.getAdjacentNodeFromPort r.currentNode p.toNat,
                portsTraversed := r.portsTraversed ++ [p] },
       if vis.getD (g.getAdjacentNodeFromPort r.currentNode p.toNat) false = false then
         vis.set (g.getAdjacentNodeFromPort r.currentNode p.toNat) true
       else vis) := by
  simp only [treeMoveBody, hp]
  rw [if_neg (by omega : ¬ p = -1), if_neg (not_lt.mpr hw)]

theorem treeMoveBody_vis_length (g : Graph) (plans : Nat → Option Int) (vis : List Bool)
    (r : Robot) : (treeMoveBody g plans vis r).2.length = vis.length := by
  simp only [treeMoveBody]
  rcases plans r.id with _ | p
  · rfl
  · dsimp only
    split_ifs <;> simp

theorem moveFold_snd_eq {α σ : Type _} (body : σ → α → α × σ) :
    ∀ (xs : List α) (s : σ),
      (moveFold body xs s).2 = xs.foldl (fun t a => (body t a).2) s := by
  intro xs
  induction xs with
  | nil => intro s; rfl
  | cons x xs ih =>
    intro s
    rw [moveFold_cons, List.foldl_cons]
    exact ih (body s x).2

theorem treeFold_vis_true (g : Graph) (plans : Nat → Option Int) (nn : Nat)
    (l1 : List Robot) (r : Robot) (l2 : List Robot) (vis : List Bool) (p : Int)
    (hp : plans r.id = some p) (hp0 : 0 ≤ p)
    (hw : 0 ≤ g.getEdgeWeightFromPort r.currentNode p.toNat)
    (hnn : g.getAdjacentNodeFromPort r.currentNode p.toNat = nn)
    (hlen : nn < vis.length) :
    ((l1 ++ r :: l2).foldl (fun t a => (treeMoveBody g plans t a).2) vis).getD nn false
      = true := by
  rw [List.foldl_append, List.foldl_cons]
  have hlen1 : (l1.foldl (fun t a => (treeMoveBody g plans t a).2) vis).length = vis.length :=
    foldl_pres _ (fun v => v.length = vis.length)
      (fun v a hv => (treeMoveBody_vis_length g plans v a).trans hv) l1 vis rfl
  have hmid :
      ((treeMoveBody g plans (l1.foldl (fun t a => (treeMoveBody g plans t a).2) vis) r).2).getD
        nn false = true := by
    rw [treeMoveBody_moves g plans _ r p hp hp0 hw]
    dsimp only
    rw [hnn]
    by_cases hv :
        (l1.foldl (fun t a => (treeMoveBody g plans t a).2) vis).getD nn false = false
    · rw [if_pos hv]
      exact getD_set_self_true _ _ (by rw [hlen1]; exact hlen)
    · rw [if_neg hv]
      cases hb : (l1.foldl (fun t a => (treeMoveBody g plans t a).2) vis).getD nn false with
      | true => rfl
      | false => exact absurd hb hv
  exact foldl_pres _ (fun v => v.getD nn false = true)
    (fun v a hv => treeMoveBody_vis g plans v a nn hv) l2 _ hmid

/-- C2 amended: when a robot's intended port carries a non-negative edge
weight, the robot's currentNode becomes the adjacent node at that port and
the port is appended to portsTraversed in all three coordinators, but
visitedNodes at the robot's NEW node is set within that same step only by
the tree coordinator. The dispersion move leaves visitedNodes entirely
unchanged; the exploration move marks only the robot's departure node and
leaves the flag of the (distinct) new node as it was; nodes reached by a
random walk are marked only when the robot is processed in a later step. -/
theorem c2_move_semantics_amended :
    (∀ (g : Graph) (rng : Nat → ℚ) (vis : List Bool) (pos : Nat) (r : RWRobot),
      r.state = RobotActivity.active →
      vis.getD r.currentNode false = true →
      0 < g.getNumberOfPorts r.currentNode →
      0 ≤ g.getEdgeWeightFromPort r.currentNode
          ((Rat.floor (ratMulNat (rng pos) (g.getNumberOfPorts r.currentNode))).toNat) →
      rwdMoveBody g rng (vis, pos) r =
        ({ r with
            currentNode := g.getAdjacentNodeFromPort r.currentNode
              ((Rat.floor (ratMulNat (rng pos) (g.getNumberOfPorts r.currentNode))).toNat),
            portsTraversed := r.portsTraversed ++
              [((Rat.floor (ratMulNat (rng pos) (g.getNumberOfPorts r.currentNode))).toNat : Int)] },
         vis, pos + 1)) ∧
    (∀ (g : Graph) (rng : Nat → ℚ) (vis : List Bool) (pos : Nat) (r : RWRobot),
      0 < g.getNumberOfPorts r.currentNode →
      0 ≤ g.getEdgeWeightFromPort r.currentNode
          ((Rat.floor (ratMulNat (rng pos) (g.getNumberOfPorts r.currentNode))).toNat) →
      g.getAdjacentNodeFromPort r.currentNode
          ((Rat.floor (ratMulNat (rng pos) (g.getNumberOfPorts r.currentNode))).toNat)
        ≠ r.currentNode →
      rweMoveBody g rng (vis, pos) r =
        ({ r with
            currentNode := g.getAdjacentNodeFromPort r.currentNode
              ((Rat.floor (ratMulNat (rng pos) (g.getNumberOfPorts r.currentNode))).toNat),
            portsTraversed := r.portsTraversed ++
              [((Rat.floor (ratMulNat (rng pos) (g.getNumberOfPorts r.currentNode))).toNat : Int)] },
         (if vis.getD r.currentNode false = false then vis.set r.currentNode true else vis),
         pos + 1) ∧
      (if vis.getD r.currentNode false = false then vis.set r.currentNode true
        else vis).getD
          (g.getAdjacentNodeFromPort r.currentNode
            ((Rat.floor (ratMulNat (rng pos) (g.getNumberOfPorts r.currentNode))).toNat)) false
        = vis.getD
            (g.getAdjacentNodeFromPort r.currentNode
              ((Rat.floor (ratMulNat (rng pos) (g.getNumberOfPorts r.currentNode))).toNat)) false) ∧
    (∀ (s : TreeCoord) (i : Nat) (r : Robot) (p : Int),
      s.robots.get? i = some r →
      treeStepPlans s r.id = some p →
      0 ≤ p →
      0 ≤ (treeStepGraph s).getEdgeWeightFromPort r.currentNode p.toNat →
      (treeStepGraph s).getAdjacentNodeFromPort r.currentNode p.toNat < s.visitedNodes.length →
      (treeStep s).robots.get? i =
        some { r with
                currentNode := (treeStepGraph s).getAdjacentNodeFromPort r.currentNode p.toNat,
                portsTraversed := r.portsTraversed ++ [p] } ∧
      (treeStep s).visitedNodes.getD
        ((treeStepGraph s).getAdjacentNodeFromPort r.currentNode p.toNat) false = true) := by
  refine ⟨?_, ?_, ?_⟩
  · intro g rng vis pos r h1 h2 h3 h4
    simp only [rwdMoveBody, h1]
    rw [if_neg (by decide), if_neg (by rw [h2]; decide), if_neg (by omega),
      if_neg (not_lt.mpr h4)]
  · intro g rng vis pos r h3 h4 hne
    simp only [rweMoveBody]
    rw [if_neg (by omega), if_neg (not_lt.mpr h4)]
    refine ⟨rfl, ?_⟩
    by_cases hv : vis.getD r.currentNode false = false
    · rw [if_pos hv]
      exact getD_set_ne vis r.currentNode _ true false hne
    · rw [if_neg hv]
  · intro s i r p hget hplan hp0 hw hlt
    have hi : i < s.robots.length := (List.get?_eq_some.mp hget).elim (fun h1 _ => h1)
    have hgr : s.robots.get ⟨i, hi⟩ = r := by
      rcases List.get?_eq_some.mp hget with ⟨h', hg⟩
      exact hg
    have hsplit : s.robots = s.robots.take i ++ r :: s.robots.drop (i + 1) := by
      conv_lhs => rw [← List.take_append_drop i s.robots]
      rw [List.drop_eq_get_cons hi, hgr]
    constructor
    · have hmap :
          (moveFold (treeMoveBody (treeStepGraph s) (treeStepPlans s)) s.robots
            s.visitedNodes).1 =
          s.robots.map
            (fun a => (treeMoveBody (treeStepGraph s) (treeStepPlans s) s.visitedNodes a).1) :=
        moveFold_fst_map _ _ (fun st a => treeMoveBody_fst _ _ st s.visitedNodes a)
          s.robots s.visitedNodes
      have hfr :
          (treeMoveBody (treeStepGraph s) (treeStepPlans s) s.visitedNodes r).1 =
          { r with
              currentNode := (treeStepGraph s).getAdjacentNodeFromPort r.currentNode p.toNat,
              portsTraversed := r.portsTraversed ++ [p] } := by
        rw [treeMoveBody_moves _ _ _ _ _ hplan hp0 hw]
      simp only [treeStep]
      rw [hmap, List.get?_append (by simpa using hi), List.get?_map, hget,
        Option.map_some', hfr]
    · simp only [treeStep]
      rw [moveFold_snd_eq]
      conv_lhs => rw [hsplit]
      exact treeFold_vis_true (treeStepGraph s) (treeStepPlans s) _
        (s.robots.take i) r (s.robots.drop (i + 1)) s.visitedNodes p hplan hp0 hw rfl hlt

/-- C2 witness: the three parts of the amended move semantics evaluated on
path2: a dispersion robot and an exploration robot at node 0 with draw 1/2
(port 0, weight 1), and the tree coordinator state with planned port 0. -/
theorem c2_witness :
    (rwdMoveBody path2 rngHalf ([true, false], 0) ⟨0, 0, 0, [], RobotActivity.active⟩ =
      ({ (⟨0, 0, 0, [], RobotActivity.active⟩ : RWRobot) with
          currentNode := path2.getAdjacentNodeFromPort 0
            ((Rat.floor (ratMulNat (rngHalf 0) (path2.getNumberOfPorts 0))).toNat),
          portsTraversed := [] ++
            [((Rat.floor (ratMulNat (rngHalf 0) (path2.getNumberOfPorts 0))).toNat : Int)] },
       [true, false], 0 + 1)) ∧
    (rweMoveBody path2 rngHalf ([true, false], 0) ⟨0, 0, 0, [], RobotActivity.active⟩ =
      ({ (⟨0, 0, 0, [], RobotActivity.active⟩ : RWRobot) with
          currentNode := path2.getAdjacentNodeFromPort 0
            ((Rat.floor (ratMulNat (rngHalf 0) (path2.getNumberOfPorts 0))).toNat),
          portsTraversed := [] ++
            [((Rat.floor (ratMulNat (rngHalf 0) (path2.getNumberOfPorts 0))).toNat : Int)] },
       (if [true, false].getD 0 false = false then [true, false].set 0 true else [true, false]),
       0 + 1) ∧
     (if [true, false].getD 0 false = false then [true, false].set 0 true
       else [true, false]).getD
         (path2.getAdjacentNodeFromPort 0
           ((Rat.floor (ratMulNat (rngHalf 0) (path2.getNumberOfPorts 0))).toNat)) false
       = [true, false].getD
           (path2.getAdjacentNodeFromPort 0
             ((Rat.floor (ratMulNat (rngHalf 0) (path2.getNumberOfPorts 0))).toNat)) false) ∧
    ((treeStep egTree).robots.get? 0 =
      some { (⟨0, 0, 0, []⟩ : Robot) with
              currentNode := (treeStepGraph egTree).getAdjacentNodeFromPort 0 (Int.toNat 0),
              portsTraversed := [] ++ [(0 : Int)] } ∧
     (treeStep egTree).visitedNodes.getD
       ((treeStepGraph egTree).getAdjacentNodeFromPort 0 (Int.toNat 0)) false = true) :=
  ⟨c2_move_semantics_amended.1 path2 rngHalf [true, false] 0 ⟨0, 0, 0, [], RobotActivity.active⟩
     rfl (by decide) (by decide) (by decide),
   c2_move_semantics_amended.2.1 path2 rngHalf [true, false] 0 ⟨0, 0, 0, [], RobotActivity.active⟩
     (by decide) (by decide) (by decide),
   c2_move_semantics_amended.2.2 egTree 0 ⟨0, 0, 0, []⟩ 0 (by decide) (by decide) (by decide)
     (by decide) (by decide)⟩

/-! Claim C7. -/

theorem erAttempts_spec (n : Nat) (p : ℚ) (dir loops : Bool) (rng : Nat → ℚ) :
    ∀ (k pos : Nat),
      (erAttempts n p dir loops rng (k + 1) pos).1.length ≤ k + 1 ∧
      ((erAttempts n p dir loops rng (k + 1) pos).2.2.1 = 0 ↔
        ∀ g ∈ (erAttempts n p dir loops rng (k + 1) pos).1, g.isConnected = false) ∧
      ((erAttempts n p dir loops rng (k + 1) pos).2.2.1 ≠ 0 →
        (erAttempts n p dir loops rng (k + 1) pos).2.1.isConnected = true) := by
  intro k
  induction k with
  | zero =>
    intro pos
    simp only [erAttempts]
    cases hconn : (buildErdosRenyi n p dir loops rng pos).1.isConnected with
    | true => simp [hconn]
    | false => simp [hconn]
  | succ k ih =>
    intro pos
    simp only [erAttempts]
    cases hconn : (buildErdosRenyi n p dir loops rng pos).1.isConnected with
    | true => simp [hconn]; omega
    | false =>
      obtain ⟨ih1, ih2, ih3⟩ := ih (buildErdosRenyi n p dir loops rng pos).2
      simp only [hconn, Bool.false_eq_true, if_false, Nat.zero_lt_succ, if_true]
      refine ⟨by simpa using Nat.succ_le_succ ih1, ?_, ih3⟩
      simp only [List.mem_cons]
      constructor
      · intro hz g hg
        rcases hg with hg | hg
        · rw [hg]; exact hconn
        · exact (ih2.mp hz) g hg
      · intro hall
        exact ih2.mpr (fun g hg => hall g (Or.inr hg))

/-- C7: with requireConnected and an attempt budget m of at least 1 (and a
nonempty node set, where the source's connectivity check is well defined),
the generator constructs at most m candidate graphs, throws the generation
error exactly when every constructed candidate fails isConnected, and any
graph it returns passes isConnected. -/
theorem c7_erdos_renyi_attempts (n : Nat) (p : ℚ) (dir loops : Bool) (rng : Nat → ℚ)
    (pos m : Nat) (hm : 1 ≤ m) (_hn : 0 < n) :
    (erAttempts n p dir loops rng m pos).1.length ≤ m ∧
    (GraphGenerator.generateErdosRenyiRandomGraph n p dir loops true m rng pos =
        Except.error () ↔
      ∀ g ∈ (erAttempts n p dir loops rng m pos).1, g.isConnected = false) ∧
    (∀ g, GraphGenerator.generateErdosRenyiRandomGraph n p dir loops true m rng pos =
        Except.ok g → g.isConnected = true) := by
  obtain ⟨k, rfl⟩ : ∃ k, m = k + 1 := ⟨m - 1, by omega⟩
  obtain ⟨h1, h2, h3⟩ := erAttempts_spec n p dir loops rng k pos
  refine ⟨h1, ?_, ?_⟩
  · unfold GraphGenerator.generateErdosRenyiRandomGraph
    simp only [if_true]
    by_cases hz : (erAttempts n p dir loops rng (k + 1) pos).2.2.1 = 0
    · simp only [hz, if_pos rfl]
      exact ⟨fun _ => h2.mp hz, fun _ => rfl⟩
    · rw [if_neg hz]
      constructor
      · intro h
        exact absurd h (by simp)
      · intro hall
        exact absurd (h2.mpr hall) hz
  · intro g hok
    unfold GraphGenerator.generateErdosRenyiRandomGraph at hok
    simp only [if_true] at hok
    by_cases hz : (erAttempts n p dir loops rng (k + 1) pos).2.2.1 = 0
    · rw [if_pos hz] at hok
      exact absurd hok (by simp)
    · rw [if_neg hz] at hok
      have hg : (erAttempts n p dir loops rng (k + 1) pos).2.1 = g := by
        simpa using hok
      rw [← hg]
      exact h3 hz

/-- C7 witness: a single attempt on one node with edge probability 1
produces a connected singleton graph and no error. -/
theorem c7_witness :
    (erAttempts 1 1 false false rngHalf 1 0).1.length ≤ 1 ∧
    (GraphGenerator.generateErdosRenyiRandomGraph 1 1 false false true 1 rngHalf 0 =
        Except.error () ↔
      ∀ g ∈ (erAttempts 1 1 false false rngHalf 1 0).1, g.isConnected = false) ∧
    (∀ g, GraphGenerator.generateErdosRenyiRandomGraph 1 1 false false true 1 rngHalf 0 =
        Except.ok g → g.isConnected = true) :=
  c7_erdos_renyi_attempts 1 1 false false rngHalf 0 1 (by decide) (by decide)

/-! Claims C4 and C5: lemmas about setEdgeWeight and the sign reshuffle. -/

theorem length_modifyIdx {α : Type _} (f : α → α) : ∀ (l : List α) (k : Nat),
    (modifyIdx f l k).length = l.length := by
  intro l
  induction l with
  | nil => intro k; rfl
  | cons x xs ih =>
    intro k
    cases k with
    | zero => rfl
    | succ k => simpa [modifyIdx] using ih k

theorem getD_modifyIdx_self {α : Type _} (f : α → α) : ∀ (l : List α) (k : Nat) (d : α),
    k < l.length → (modifyIdx f l k).getD k d = f (l.getD k d) := by
  intro l
  induction l with
  | nil => intro k d h; simp at h
  | cons x xs ih =>
    intro k d h
    cases k with
    | zero => rfl
    | succ k => simpa [modifyIdx] using ih k d (by simpa using h)

theorem getD_modifyIdx_ne {α : Type _} (f : α → α) : ∀ (l : List α) (k a : Nat) (d : α),
    a ≠ k → (modifyIdx f l k).getD a d = l.getD a d := by
  intro l
  induction l with
  | nil => intro k a d h; rfl
  | cons x xs ih =>
    intro k a d h
    cases k with
    | zero =>
      cases a with
      | zero => exact absurd rfl h
      | succ a => rfl
    | succ k =>
      cases a with
      | zero => rfl
      | succ a => simpa [modifyIdx] using ih k a d (fun hh => h (by rw [hh]))

theorem modifyIdx_oob {α : Type _} (f : α → α) : ∀ (l : List α) (k : Nat),
    l.length ≤ k → modifyIdx f l k = l := by
  intro l
  induction l with
  | nil => intro k h; rfl
  | cons x xs ih =>
    intro k h
    cases k with
    | zero => simp at h
    | succ k => simpa [modifyIdx] using ih k (by simpa using h)

theorem setFirstWeight_targets (t : Nat) (w : ℚ) : ∀ (l : List Edge),
    (setFirstWeight t w l).map Edge.targetNode = l.map Edge.targetNode := by
  intro l
  induction l with
  | nil => rfl
  | cons e es ih =>
    by_cases h : e.targetNode = t
    · simp [setFirstWeight, h]
    · simp [setFirstWeight, h, ih]

theorem reweight_targetNode (t : Nat) (w : ℚ) (e : Edge) :
    (reweight t w e).targetNode = e.targetNode := by
  unfold reweight
  split_ifs <;> rfl

theorem sewAction_targetNode (s t : Nat) (w : ℚ) (a : Nat) (e : Edge) :
    (sewAction s t w a e).targetNode = e.targetNode := by
  unfold sewAction
  split_ifs <;> simp [reweight_targetNode]

theorem sewAction_weight (s t : Nat) (w : ℚ) (a : Nat) (e : Edge) :
    (sewAction s t w a e).weight =
      if (a = s ∧ e.targetNode = t) ∨ (a = t ∧ e.targetNode = s) then w else e.weight := by
  by_cases hat : a = t <;> by_cases has : a = s <;>
    by_cases het : e.targetNode = t <;> by_cases hes : e.targetNode = s <;>
    simp_all [sewAction, reweight]

theorem setFirstWeight_eq_map (t : Nat) (w : ℚ) : ∀ (l : List Edge),
    (l.map Edge.targetNode).Nodup → setFirstWeight t w l = l.map (reweight t w) := by
  intro l
  induction l with
  | nil => intro _; rfl
  | cons e es ih =>
    intro hnd
    rw [List.map_cons, List.nodup_cons] at hnd
    by_cases h : e.targetNode = t
    · simp only [setFirstWeight, if_pos h, List.map_cons, reweight, if_pos h]
      have : es.map (reweight t w) = es := by
        apply (List.map_congr_left ?_).trans (List.map_id es)
        intro x hx
        have hxt : x.targetNode ≠ t := by
          intro hxt
          apply hnd.1
          rw [h, ← hxt]
          exact List.mem_map_of_mem _ hx
        simp [reweight, hxt]
      rw [this]
    · simp only [setFirstWeight, if_neg h, List.map_cons, reweight, if_neg h]
      rw [ih hnd.2]

theorem find?_map_target (f : Edge → Edge) (hf : ∀ e, (f e).targetNode = e.targetNode)
    (c : Nat) : ∀ (l : List Edge),
    (l.map f).find? (fun e => e.targetNode == c) =
      (l.find? (fun e => e.targetNode == c)).map f := by
  intro l
  induction l with
  | nil => rfl
  | cons e es ih =>
    by_cases h : e.targetNode = c
    · rw [List.map_cons, List.find?_cons_of_pos _ (by simp [hf, h]),
        List.find?_cons_of_pos _ (by simp [h]), Option.map_some']
    · rw [List.map_cons, List.find?_cons_of_neg _ (by simp [hf, h]),
        List.find?_cons_of_neg _ (by simp [h]), ih]

theorem mathAbs_mathAbs (x : ℚ) : mathAbs (mathAbs x) = mathAbs x := by
  unfold mathAbs
  split_ifs <;> first | rfl | linarith

theorem mathAbs_neg_mathAbs (x : ℚ) : mathAbs (-(mathAbs x)) = mathAbs x := by
  unfold mathAbs
  split_ifs <;> first | rfl | linarith

theorem getD_edges_modify (f : List Edge → List Edge) (l : List Vertex) (k a : Nat) :
    ((modifyIdx (fun v => { v with edges := f v.edges }) l k).getD a ⟨0, []⟩).edges =
      if a = k ∧ a < l.length then f ((l.getD a ⟨0, []⟩).edges)
      else (l.getD a ⟨0, []⟩).edges := by
  by_cases hak : a = k
  · subst hak
    by_cases hl : a < l.length
    · rw [getD_modifyIdx_self _ _ _ _ hl, if_pos ⟨rfl, hl⟩]
    · rw [modifyIdx_oob _ _ _ (le_of_not_lt hl), if_neg (fun hc => hl hc.2)]
  · rw [getD_modifyIdx_ne _ _ _ _ _ hak, if_neg (fun hc => hak hc.1)]

theorem getD_weight_modify (f : List Edge → List Edge) (l : List Vertex) (k a : Nat) :
    ((modifyIdx (fun v => { v with edges := f v.edges }) l k).getD a ⟨0, []⟩).weight =
      (l.getD a ⟨0, []⟩).weight := by
  by_cases hak : a = k
  · subst hak
    by_cases hl : a < l.length
    · rw [getD_modifyIdx_self _ _ _ _ hl]
    · rw [modifyIdx_oob _ _ _ (le_of_not_lt hl)]
  · rw [getD_modifyIdx_ne _ _ _ _ _ hak]

theorem map_target_reweight (t : Nat) (w : ℚ) (l : List Edge) :
    (l.map (reweight t w)).map Edge.targetNode = l.map Edge.targetNode := by
  rw [List.map_map]
  exact List.map_congr_left (fun e _ => reweight_targetNode t w e)

theorem setEdgeWeight_isDirected (g : Graph) (s t : Nat) (w : ℚ) :
    (g.setEdgeWeight s t w).isDirected = g.isDirected := by
  unfold Graph.setEdgeWeight
  split_ifs <;> rfl

theorem setEdgeWeight_length (g : Graph) (s t : Nat) (w : ℚ) :
    (g.setEdgeWeight s t w).nodes.length = g.nodes.length := by
  unfold Graph.setEdgeWeight
  split_ifs <;> simp [length_modifyIdx]

theorem setEdgeWeight_nodeWeight (g : Graph) (s t : Nat) (w : ℚ) (a : Nat) :
    ((g.setEdgeWeight s t w).nodes.getD a ⟨0, []⟩).weight =
      (g.nodes.getD a ⟨0, []⟩).weight := by
  unfold Graph.setEdgeWeight
  split_ifs
  · exact getD_weight_modify _ _ _ _
  · show ((modifyIdx _ (modifyIdx _ g.nodes _) _).getD a ⟨0, []⟩).weight = _
    rw [getD_weight_modify, getD_weight_modify]

theorem edgesAt_setEdgeWeight_dir (g : Graph) (s t : Nat) (w : ℚ)
    (hdir : g.isDirected = true) (a : Nat) :
    (g.setEdgeWeight s t w).edgesAt a =
      if a = s ∧ a < g.nodes.length then setFirstWeight t w (g.edgesAt a)
      else g.edgesAt a := by
  unfold Graph.setEdgeWeight Graph.edgesAt
  rw [if_pos hdir]
  exact getD_edges_modify _ _ _ _

theorem edgesAt_setEdgeWeight_undir (g : Graph) (s t : Nat) (w : ℚ)
    (hdir : g.isDirected = false)
    (hs : ((g.edgesAt s).map Edge.targetNode).Nodup)
    (ht : ((g.edgesAt t).map Edge.targetNode).Nodup) (a : Nat) :
    (g.setEdgeWeight s t w).edgesAt a = (g.edgesAt a).map (sewAction s t w a) := by
  unfold Graph.setEdgeWeight
  rw [if_neg (by simp [hdir])]
  show ((modifyIdx (fun v => { v with edges := setFirstWeight s w v.edges })
      (modifyIdx (fun v => { v with edges := setFirstWeight t w v.edges }) g.nodes s)
      t).getD a ⟨0, []⟩).edges = _
  rw [getD_edges_modify, length_modifyIdx, getD_edges_modify]
  unfold Graph.edgesAt at hs ht ⊢
  by_cases hlen : a < g.nodes.length
  · by_cases has : a = s <;> by_cases hat : a = t
    · have hsa : ((g.nodes.getD a ⟨0, []⟩).edges.map Edge.targetNode).Nodup := by
        rw [has]; exact hs
      rw [if_pos ⟨hat, hlen⟩, if_pos ⟨has, hlen⟩]
      rw [setFirstWeight_eq_map t w _ hsa,
        setFirstWeight_eq_map s w _ (by rw [map_target_reweight]; exact hsa), List.map_map]
      exact List.map_congr_left (fun e _ => by
        unfold sewAction
        rw [if_pos hat, if_pos has]
        rfl)
    · have hsa : ((g.nodes.getD a ⟨0, []⟩).edges.map Edge.targetNode).Nodup := by
        rw [has]; exact hs
      rw [if_neg (fun hc => hat hc.1), if_pos ⟨has, hlen⟩]
      rw [setFirstWeight_eq_map t w _ hsa]
      exact List.map_congr_left (fun e _ => by
        unfold sewAction
        rw [if_neg hat, if_pos has]
        rfl)
    · have hta : ((g.nodes.getD a ⟨0, []⟩).edges.map Edge.targetNode).Nodup := by
        rw [hat]; exact ht
      rw [if_pos ⟨hat, hlen⟩, if_neg (fun hc => has hc.1)]
      rw [setFirstWeight_eq_map s w _ hta]
      exact List.map_congr_left (fun e _ => by
        unfold sewAction
        rw [if_pos hat, if_neg has]
        rfl)
    · rw [if_neg (fun hc => hat hc.1), if_neg (fun hc => has hc.1)]
      refine ((List.map_congr_left ?_).trans (List.map_id _)).symm
      intro e _
      unfold sewAction
      rw [if_neg hat, if_neg has]
      rfl
  · rw [if_neg (fun hc => hlen hc.2), if_neg (fun hc => hlen hc.2)]
    rw [List.getD_eq_default _ _ (le_of_not_lt hlen)]
    rfl

theorem find_unique_target : ∀ (l : List Edge), (l.map Edge.targetNode).Nodup →
    ∀ e' ∈ l, l.find? (fun e => e.targetNode == e'.targetNode) = some e' := by
  intro l
  induction l with
  | nil => intro _ e' he'; simp at he'
  | cons x xs ih =>
    intro hnd e' he'
    rw [List.map_cons, List.nodup_cons] at hnd
    rcases List.mem_cons.mp he' with rfl | hmem
    · exact List.find?_cons_of_pos _ (by simp)
    · have hne : x.targetNode ≠ e'.targetNode := by
        intro hx
        exact hnd.1 (hx ▸ List.mem_map_of_mem Edge.targetNode hmem)
      rw [List.find?_cons_of_neg _ (by simpa using hne)]
      exact ih hnd.2 e' hmem

theorem target_lt_of_mirror (g : Graph) (hm : MirrorConsistent g) (a : Nat)
    (ha : a < g.nodes.length) (e : Edge) (he : e ∈ g.edgesAt a) :
    e.targetNode < g.nodes.length := by
  by_contra hge
  have hmw := hm a ha e he
  unfold mirrorWeight Graph.edgesAt at hmw
  rw [List.getD_eq_default _ _ (le_of_not_lt hge)] at hmw
  simp at hmw

theorem setEdgeWeight_mirror (g : Graph) (s t : Nat) (w : ℚ)
    (hdir : g.isDirected = false) (hnd : NodupTargets g) (hm : MirrorConsistent g)
    (hs : s < g.nodes.length) (ht : t < g.nodes.length) :
    MirrorConsistent (g.setEdgeWeight s t w) := by
  intro a ha e' he'
  rw [setEdgeWeight_length] at ha
  have hchar := edgesAt_setEdgeWeight_undir g s t w hdir (hnd s hs) (hnd t ht)
  rw [hchar a] at he'
  rcases List.mem_map.mp he' with ⟨e, he, rfl⟩
  have hmw := hm a ha e he
  unfold mirrorWeight at hmw ⊢
  rcases Option.map_eq_some'.mp hmw with ⟨m0, hfind, hw0⟩
  have hm0t : m0.targetNode = a := by simpa using List.find?_some hfind
  rw [sewAction_targetNode, hchar e.targetNode,
    find?_map_target _ (sewAction_targetNode s t w e.targetNode) a _, hfind,
    Option.map_some', Option.map_some']
  congr 1
  rw [sewAction_weight, sewAction_weight, hm0t, hw0]
  by_cases h1 : (e.targetNode = s ∧ a = t) ∨ (e.targetNode = t ∧ a = s)
  · rw [if_pos h1, if_pos (by tauto)]
  · rw [if_neg h1, if_neg (by tauto)]

theorem abs_setEdgeWeight_undir (g : Graph) (s t : Nat) (w : ℚ)
    (hdir : g.isDirected = false)
    (hs : ((g.edgesAt s).map Edge.targetNode).Nodup)
    (ht : ((g.edgesAt t).map Edge.targetNode).Nodup)
    (habs_s : ∀ e ∈ g.edgesAt s, e.targetNode = t → mathAbs w = mathAbs e.weight)
    (habs_t : ∀ e ∈ g.edgesAt t, e.targetNode = s → mathAbs w = mathAbs e.weight)
    (a : Nat) :
    ((g.setEdgeWeight s t w).edgesAt a).map (fun e => (e.targetNode, mathAbs e.weight)) =
      (g.edgesAt a).map (fun e => (e.targetNode, mathAbs e.weight)) := by
  rw [edgesAt_setEdgeWeight_undir g s t w hdir hs ht a, List.map_map]
  apply List.map_congr_left
  intro e he
  show ((sewAction s t w a e).targetNode, mathAbs (sewAction s t w a e).weight) = _
  rw [sewAction_targetNode, sewAction_weight]
  by_cases hc : (a = s ∧ e.targetNode = t) ∨ (a = t ∧ e.targetNode = s)
  · rw [if_pos hc]
    rcases hc with ⟨ha, h2⟩ | ⟨ha, h2⟩
    · rw [(habs_s e (ha ▸ he) h2)]
    · rw [(habs_t e (ha ▸ he) h2)]
  · rw [if_neg hc]

theorem abs_setEdgeWeight_dir (g : Graph) (s t : Nat) (w : ℚ)
    (hdir : g.isDirected = true)
    (hs : ((g.edgesAt s).map Edge.targetNode).Nodup)
    (habs_s : ∀ e ∈ g.edgesAt s, e.targetNode = t → mathAbs w = mathAbs e.weight)
    (a : Nat) :
    ((g.setEdgeWeight s t w).edgesAt a).map (fun e => (e.targetNode, mathAbs e.weight)) =
      (g.edgesAt a).map (fun e => (e.targetNode, mathAbs e.weight)) := by
  rw [edgesAt_setEdgeWeight_dir g s t w hdir a]
  by_cases hc : a = s ∧ a < g.nodes.length
  · rw [if_pos hc]
    rw [setFirstWeight_eq_map t w _ (hc.1 ▸ hs), List.map_map]
    apply List.map_congr_left
    intro e he
    show ((reweight t w e).targetNode, mathAbs (reweight t w e).weight) = _
    rw [reweight_targetNode]
    by_cases het : e.targetNode = t
    · have : (reweight t w e).weight = w := by rw [reweight, if_pos het]
      rw [this, habs_s e (hc.1 ▸ he) het]
    · have : (reweight t w e).weight = e.weight := by rw [reweight, if_neg het]
      rw [this]
  · rw [if_neg hc]

theorem SameShapeAbs_refl (g : Graph) : SameShapeAbs g g :=
  ⟨rfl, rfl, fun _ => rfl, fun _ => rfl⟩

theorem shape_targets_eq (g0 gc : Graph) (h : SameShapeAbs g0 gc) (a : Nat) :
    (gc.edgesAt a).map Edge.targetNode = (g0.edgesAt a).map Edge.targetNode := by
  have hp := congrArg (List.map Prod.fst) (h.2.2.2 a)
  simpa [List.map_map, Function.comp] using hp

theorem shape_nodup (g0 gc : Graph) (h : SameShapeAbs g0 gc) (hnd : NodupTargets g0) :
    NodupTargets gc := by
  intro a ha
  rw [shape_targets_eq _ _ h a]
  exact hnd a (by rw [← h.2.1]; exact ha)

theorem shape_edges_length (g0 gc : Graph) (h : SameShapeAbs g0 gc) (a : Nat) :
    (gc.edgesAt a).length = (g0.edgesAt a).length := by
  have := congrArg List.length (shape_targets_eq _ _ h a)
  simpa using this

theorem foldl_pres_mem {β α : Type _} (f : β → α → β) (P : β → Prop) :
    ∀ (xs : List α), (∀ b a, a ∈ xs → P b → P (f b a)) →
      ∀ (b : β), P b → P (xs.foldl f b) := by
  intro xs
  induction xs with
  | nil => intro _ b hb; exact hb
  | cons x xs ih =>
    intro hstep b hb
    exact ih (fun b' a' ha' hb' => hstep b' a' (List.mem_cons_of_mem x ha') hb')
      (f b x) (hstep b x (List.mem_cons_self x xs) hb)

theorem sew_inv_step (g0 gc : Graph) (sid i : Nat) (w : ℚ)
    (hsid : sid < g0.nodes.length)
    (hi : i < (g0.edgesAt sid).length)
    (hnd : NodupTargets g0)
    (hshape : SameShapeAbs g0 gc)
    (hmir : g0.isDirected = false → MirrorConsistent gc)
    (hw : mathAbs w = mathAbs (((gc.edgesAt sid).getD i ⟨0, 0⟩).weight)) :
    SameShapeAbs g0 (gc.setEdgeWeight sid (((gc.edgesAt sid).getD i ⟨0, 0⟩).targetNode) w) ∧
    (g0.isDirected = false →
      MirrorConsistent
        (gc.setEdgeWeight sid (((gc.edgesAt sid).getD i ⟨0, 0⟩).targetNode) w)) := by
  have hndc : NodupTargets gc := shape_nodup g0 gc hshape hnd
  have hsidc : sid < gc.nodes.length := by rw [hshape.2.1]; exact hsid
  have hic : i < (gc.edgesAt sid).length := by rw [shape_edges_length g0 gc hshape]; exact hi
  have hgetD : (gc.edgesAt sid).getD i ⟨0, 0⟩ = (gc.edgesAt sid)[i] :=
    List.getD_eq_getElem _ _ hic
  have hmem : (gc.edgesAt sid).getD i ⟨0, 0⟩ ∈ gc.edgesAt sid := by
    rw [hgetD]; exact List.getElem_mem hic
  have huniq : ∀ e' ∈ gc.edgesAt sid,
      e'.targetNode = ((gc.edgesAt sid).getD i ⟨0, 0⟩).targetNode →
      e' = (gc.edgesAt sid).getD i ⟨0, 0⟩ := by
    intro e' he' htg
    have h1 := find_unique_target (gc.edgesAt sid) (hndc sid hsidc) e' he'
    have h2 := find_unique_target (gc.edgesAt sid) (hndc sid hsidc) _ hmem
    rw [htg] at h1
    rw [h1] at h2
    exact Option.some_inj.mp h2
  have habs_s : ∀ e' ∈ gc.edgesAt sid,
      e'.targetNode = ((gc.edgesAt sid).getD i ⟨0, 0⟩).targetNode →
      mathAbs w = mathAbs e'.weight := by
    intro e' he' htg
    rw [huniq e' he' htg]
    exact hw
  have hframe1 := setEdgeWeight_isDirected gc sid (((gc.edgesAt sid).getD i ⟨0, 0⟩).targetNode) w
  have hframe2 := setEdgeWeight_length gc sid (((gc.edgesAt sid).getD i ⟨0, 0⟩).targetNode) w
  cases hdir0 : g0.isDirected with
  | true =>
    have hdirc : gc.isDirected = true := by rw [hshape.1]; exact hdir0
    refine ⟨⟨by rw [hframe1, hshape.1], by rw [hframe2, hshape.2.1],
      fun a => by rw [setEdgeWeight_nodeWeight]; exact hshape.2.2.1 a,
      fun a => by
        rw [abs_setEdgeWeight_dir gc _ _ w hdirc (hndc sid hsidc) habs_s a]
        exact hshape.2.2.2 a⟩,
      fun hc => Bool.noConfusion hc⟩
  | false =>
    have hdirc : gc.isDirected = false := by rw [hshape.1]; exact hdir0
    have hmc : MirrorConsistent gc := hmir hdir0
    have hb : ((gc.edgesAt sid).getD i ⟨0, 0⟩).targetNode < gc.nodes.length :=
      target_lt_of_mirror gc hmc sid hsidc _ hmem
    have habs_t : ∀ e' ∈ gc.edgesAt (((gc.edgesAt sid).getD i ⟨0, 0⟩).targetNode),
        e'.targetNode = sid → mathAbs w = mathAbs e'.weight := by
      intro e' he' htg
      have hmw := hmc sid hsidc _ hmem
      unfold mirrorWeight at hmw
      rcases Option.map_eq_some'.mp hmw with ⟨m0, hfind, hw0⟩
      have h1 := find_unique_target (gc.edgesAt (((gc.edgesAt sid).getD i ⟨0, 0⟩).targetNode))
        (hndc _ hb) e' he'
      rw [htg] at h1
      rw [h1] at hfind
      have : e' = m0 := Option.some_inj.mp hfind
      rw [this, hw0]
      exact hw
    refine ⟨⟨by rw [hframe1, hshape.1], by rw [hframe2, hshape.2.1],
      fun a => by rw [setEdgeWeight_nodeWeight]; exact hshape.2.2.1 a,
      fun a => by
        rw [abs_setEdgeWeight_undir gc _ _ w hdirc (hndc sid hsidc) (hndc _ hb)
          habs_s habs_t a]
        exact hshape.2.2.2 a⟩,
      fun _ => setEdgeWeight_mirror gc _ _ w hdirc hndc hmc hsidc hb⟩

theorem srews_inv (g : Graph) (p : ℚ) (rng : Nat → ℚ) (pos : Nat)
    (hnd : NodupTargets g) (hm : g.isDirected = false → MirrorConsistent g) :
    SameShapeAbs g (g.setRandomEdgeWeightSigns p rng pos).1 ∧
    (g.isDirected = false → MirrorConsistent (g.setRandomEdgeWeightSigns p rng pos).1) := by
  unfold Graph.setRandomEdgeWeightSigns
  refine foldl_pres_mem _
    (fun acc : Graph × Nat =>
      SameShapeAbs g acc.1 ∧ (g.isDirected = false → MirrorConsistent acc.1))
    _ ?_ (g, pos) ⟨SameShapeAbs_refl g, hm⟩
  intro acc sid hsid hacc
  rw [List.mem_range] at hsid
  unfold srewsNode
  have hk : acc.1.getNumberOfPorts sid = (g.edgesAt sid).length := by
    unfold Graph.getNumberOfPorts
    exact shape_edges_length g acc.1 hacc.1 sid
  rw [hk]
  refine foldl_pres_mem _
    (fun acc : Graph × Nat =>
      SameShapeAbs g acc.1 ∧ (g.isDirected = false → MirrorConsistent acc.1))
    _ ?_ acc hacc
  intro acc' i hi hacc'
  rw [List.mem_range] at hi
  dsimp only
  by_cases hr : rng acc'.2 < p
  · rw [if_pos hr]
    exact sew_inv_step g acc'.1 sid i _ hsid hi hnd hacc'.1 hacc'.2 (mathAbs_mathAbs _)
  · rw [if_neg hr]
    exact sew_inv_step g acc'.1 sid i _ hsid hi hnd hacc'.1 hacc'.2 (mathAbs_neg_mathAbs _)

/-- C4 counterexample: in the undirected one-node graph with an allowed
self-loop, addEdge(0,0) stores two copies of the loop; one reshuffle pass
with losing draws (9/10 against survival probability 1/2) leaves the first
copy at weight -1 and the second at +1, because each setEdgeWeight only
ever updates the FIRST matching edge. The second copy's mirror (the first
matching edge back) then differs from it in sign, refuting the claim for
arbitrary undirected graphs. -/
theorem c4_counterexample :
    mirrorWeight ((egSelfLoop.setRandomEdgeWeightSigns (Rat.divInt 1 2) rng910 0).1) 0 0 =
      some (-1) ∧
    (⟨1, 0⟩ : Edge) ∈ (egSelfLoop.setRandomEdgeWeightSigns (Rat.divInt 1 2) rng910 0).1.edgesAt 0 ∧
    ¬ MirrorConsistent (egSelfLoop.setRandomEdgeWeightSigns (Rat.divInt 1 2) rng910 0).1 := by
  refine ⟨by decide, by decide, by decide⟩

/-- C4 amended: for every undirected graph whose per-node edge lists have
pairwise-distinct targets (no parallel edges, no doubled self-loop entry)
and in which every edge and its mirror carry equal weight, a single call to
setEdgeWeight (with valid endpoints) or to setRandomEdgeWeightSigns leaves
every edge and its mirror with equal weight, hence with equal absolute
weight and equal sign. -/
theorem c4_mirror_consistency_amended :
    (∀ (g : Graph) (s t : Nat) (w : ℚ),
      g.isDirected = false → NodupTargets g → MirrorConsistent g →
      s < g.nodes.length → t < g.nodes.length →
      MirrorConsistent (g.setEdgeWeight s t w)) ∧
    (∀ (g : Graph) (p : ℚ) (rng : Nat → ℚ) (pos : Nat),
      g.isDirected = false → NodupTargets g → MirrorConsistent g →
      MirrorConsistent (g.setRandomEdgeWeightSigns p rng pos).1) :=
  ⟨fun g s t w hdir hnd hm hs ht => setEdgeWeight_mirror g s t w hdir hnd hm hs ht,
   fun g p rng pos hdir hnd hm => (srews_inv g p rng pos hnd (fun _ => hm)).2 hdir⟩

/-- C4 witness: both parts instantiated on the undirected 2-node path,
which is duplicate-free and mirror-consistent. -/
theorem c4_witness :
    MirrorConsistent (path2.setEdgeWeight 0 1 7) ∧
    MirrorConsistent (path2.setRandomEdgeWeightSigns 1 rngHalf 0).1 :=
  ⟨c4_mirror_consistency_amended.1 path2 0 1 7 (by decide) (by decide) (by decide)
     (by decide) (by decide),
   c4_mirror_consistency_amended.2 path2 1 rngHalf 0 (by decide) (by decide) (by decide)⟩

/-- C5 counterexample: on an undirected-flagged graph whose two stored
directions of the edge 0 -- 1 carry magnitudes 5 and 3, one reshuffle pass
overwrites the reverse direction with the forward magnitude: the |weight|
of node 1's edge changes from 3 to 5, refuting magnitude preservation for
arbitrary graphs. -/
theorem c5_counterexample :
    mathAbs (egAsym.getEdgeWeightFromPort 1 0) = 3 ∧
    mathAbs ((egAsym.setRandomEdgeWeightSigns (Rat.divInt 1 2) rngZero 0).1.getEdgeWeightFromPort
      1 0) = 5 ∧
    mathAbs ((egAsym.setRandomEdgeWeightSigns (Rat.divInt 1 2) rngZero 0).1.getEdgeWeightFromPort
      1 0) ≠ mathAbs (egAsym.getEdgeWeightFromPort 1 0) := by
  refine ⟨by decide, by decide, by decide⟩

/-- C5 amended: on every graph whose per-node edge lists have
pairwise-distinct targets and whose mirror edges (in the undirected case)
carry equal weight, setRandomEdgeWeightSigns changes at most the sign of
each edge weight: directedness, node count, node weights, and every edge
list's targets and weight magnitudes are pointwise unchanged, for every
survival probability and random stream. -/
theorem c5_magnitude_frame_amended :
    ∀ (g : Graph) (p : ℚ) (rng : Nat → ℚ) (pos : Nat),
      NodupTargets g → (g.isDirected = false → MirrorConsistent g) →
      SameShapeAbs g (g.setRandomEdgeWeightSigns p rng pos).1 :=
  fun g p rng pos hnd hm => (srews_inv g p rng pos hnd hm).1

/-- C5 witness: the frame property instantiated on the undirected 2-node
path with survival probability 1. -/
theorem c5_witness : SameShapeAbs path2 (path2.setRandomEdgeWeightSigns 1 rngHalf 0).1 :=
  c5_magnitude_frame_amended path2 1 rngHalf 0 (by decide) (fun _ => by decide)
